import Mathlib

/-
  Verification of the hybrid missing-value imputation engine of the
  sih2025 repository (src/AI_model/main.py and
  src/AI_model/missing_value_model.py).

  The tabular data model is a shallow embedding of a pandas DataFrame:
  a table is an ordered list of named columns, each either numeric
  (cells are `Option ℚ`, `none` modelling NaN / a missing value) or
  object-typed (cells are `Option String`).  Column dtype is carried
  explicitly, as pandas does.  Rationals stand in for float64; the
  arithmetic the engine performs (means, medians, products with
  constant factors) is exact on the inputs considered.

  The RandomForest regressor of missing_value_model.py is modelled as
  an abstract deterministic oracle: a function from the training
  design matrix, the training targets and the prediction design
  matrix to either a prediction function (one value per gap row) or
  `none`, which models fit/predict raising an exception.  The oracle
  family is indexed by the ensemble size and random seed, mirroring
  `RandomForestRegressor(n_estimators=N_ESTIMATORS,
  random_state=RANDOM_STATE)`; sklearn guarantees the fitted model is
  a deterministic function of these inputs for a fixed seed.
-/

namespace LCAEngine

/-- A scalar value of a cell: a number or a string. -/
inductive Scalar where
  | num (q : ℚ)
  | str (s : String)
deriving DecidableEq

/-- Column payload: numeric (float64) or object dtype, mirroring the
pandas dtype split that `select_dtypes` inspects.  A `none` cell is a
NaN / missing value. -/
inductive ColData where
  | num (cells : List (Option ℚ))
  | obj (cells : List (Option String))
deriving DecidableEq

/-- A named DataFrame column. -/
structure Col where
  name : String
  data : ColData
deriving DecidableEq

/-- A DataFrame: ordered columns. -/
abbrev Table := List Col

/-- A column of the boolean AI mask. -/
structure BCol where
  name : String
  bits : List Bool
deriving DecidableEq

/-- The boolean mask `ai_mask` of missing_value_model.py. -/
abbrev Mask := List BCol

def ColData.length : ColData → Nat
  | ColData.num cells => cells.length
  | ColData.obj cells => cells.length

def ColData.isNum : ColData → Bool
  | ColData.num _ => true
  | ColData.obj _ => false

/-- Cell access inside one column, at the `Scalar` level.  Outer
`none` means the row index is out of range; inner `none` is NaN. -/
def ColData.cellAt : ColData → Nat → Option (Option Scalar)
  | ColData.num cells, i => (cells[i]?).map (fun c => c.map Scalar.num)
  | ColData.obj cells, i => (cells[i]?).map (fun c => c.map Scalar.str)

/-- `df[n]`: the first column named `n` (pandas column labels are
unique in every table this code touches). -/
def getColData : Table → String → Option ColData
  | [], _ => none
  | c :: cs, n => if c.name = n then some c.data else getColData cs n

/-- Replace the payload of the (first) column named `n`; identity when
no such column exists. -/
def setColData : Table → String → ColData → Table
  | [], _, _ => []
  | c :: cs, n, d => if c.name = n then ⟨c.name, d⟩ :: cs else c :: setColData cs n d

/-- `df.loc[i, n]` at the `Scalar` level: outer `none` when the column
or the row does not exist, inner `none` when the cell is NaN. -/
def getCell (t : Table) (n : String) (i : Nat) : Option (Option Scalar) :=
  (getColData t n).bind (fun cd => cd.cellAt i)

def getMaskBits : Mask → String → Option (List Bool)
  | [], _ => none
  | c :: cs, n => if c.name = n then some c.bits else getMaskBits cs n

def setMaskBits : Mask → String → List Bool → Mask
  | [], _, _ => []
  | c :: cs, n, bs => if c.name = n then ⟨c.name, bs⟩ :: cs else c :: setMaskBits cs n bs

/-- `ai_mask.loc[i, n]`. -/
def maskAt (m : Mask) (n : String) (i : Nat) : Option Bool :=
  (getMaskBits m n).bind (fun bs => bs[i]?)

/-- The numeric-dtype column labels, as `select_dtypes` with the
number dtypes (int64, float64, number) computes them. -/
def numericColNames (t : Table) : List String :=
  t.filterMap (fun c => match c.data with
    | ColData.num _ => some c.name
    | ColData.obj _ => none)

/-- The object-dtype column labels, as `select_dtypes` with the
object and category dtypes computes them. -/
def objColNames (t : Table) : List String :=
  t.filterMap (fun c => match c.data with
    | ColData.num _ => none
    | ColData.obj _ => some c.name)

/-- missing_value_model.py lines 21-26: the numeric columns with
`functional_unit_kg` removed (`numeric_cols.remove` drops the first
occurrence, i.e. `List.erase`).  These are the supervised targets and
the numeric feature pool. -/
def aiTargets (t : Table) : List String :=
  (numericColNames t).erase "functional_unit_kg"

/-- `ai_mask = pd.DataFrame(False, index=df.index, columns=df.columns)`. -/
def initMask (t : Table) : Mask :=
  t.map (fun c => ⟨c.name, List.replicate c.data.length false⟩)

/-- Insertion into a sorted list of rationals (ascending). -/
def insertSorted (x : ℚ) : List ℚ → List ℚ
  | [] => [x]
  | y :: ys => if x ≤ y then x :: y :: ys else y :: insertSorted x ys

/-- Ascending sort, used to compute the pandas median. -/
def sortedQ (l : List ℚ) : List ℚ := l.foldr insertSorted []

/-- `Series.median()` over the observed (non-NaN) values: the middle
element of the sorted values, or the mean of the two middle elements;
NaN (here `none`) when there are no observed values. -/
def medianOf (l : List ℚ) : Option ℚ :=
  let s := sortedQ l
  let n := s.length
  if n = 0 then none
  else if n % 2 = 1 then some (s.getD (n / 2) 0)
  else some ((s.getD (n / 2 - 1) 0 + s.getD (n / 2) 0) / 2)

/-- `Series.mean()` over the observed values; NaN when none observed. -/
def meanOf (l : List ℚ) : Option ℚ :=
  match l with
  | [] => none
  | _ => some (l.sum / (l.length : ℚ))

def countOcc (l : List String) (s : String) : Nat :=
  (l.filter (fun x => x = s)).length

/-- `Series.mode()[0]` over the observed values: the most frequent
value; pandas sorts the modes, so ties resolve to the smallest
string.  `none` when there are no observed values (`mode()` empty). -/
def modeOf (l : List String) : Option String :=
  l.foldl (fun best s =>
    match best with
    | none => some s
    | some b =>
        if countOcc l s > countOcc l b ∨ (countOcc l s = countOcc l b ∧ s < b)
        then some s else some b) none

/-- Write a value into every `none` cell: cell `j` of the output is
the original cell when present, and `p k` when it is the `k`-th gap
(counting gaps from the head, starting at `k₀`).  This realizes both
`df.loc[predict_mask, target] = predictions` (positional predictions)
and `= median_val` (constant `p`). -/
def fillGapsAux (p : Nat → ℚ) : List (Option ℚ) → Nat → List (Option ℚ)
  | [], _ => []
  | some v :: rest, k => some v :: fillGapsAux p rest k
  | none :: rest, k => some (p k) :: fillGapsAux p rest (k + 1)

/-- `ai_mask.loc[predict_mask, target] = True`: set the bit wherever
the corresponding cell is currently missing. -/
def maskGaps : List (Option ℚ) → List Bool → List Bool
  | [], bs => bs
  | _, [] => []
  | some _ :: rest, b :: bs => b :: maskGaps rest bs
  | none :: rest, _ :: bs => true :: maskGaps rest bs

def markGapsInMask (m : Mask) (target : String) (cells : List (Option ℚ)) : Mask :=
  match getMaskBits m target with
  | some bs => setMaskBits m target (maskGaps cells bs)
  | none => m

/-- Row indices satisfying a predicate on the target column
(`train_mask` / `predict_mask`). -/
def idxWhere (cells : List (Option ℚ)) (p : Option ℚ → Bool) : List Nat :=
  (List.range cells.length).filter (fun i => p (cells.getD i none))

/-- Restrict one column to the given row indices (`df[mask]`). -/
def restrictRows (cd : ColData) (idxs : List Nat) : ColData :=
  match cd with
  | ColData.num cells => ColData.num (idxs.map (fun i => (cells[i]?).join))
  | ColData.obj cells => ColData.obj (idxs.map (fun i => (cells[i]?).join))

/-- `train_df[feature_cols]` / `predict_df[feature_cols]`: the feature
design matrix, columns in `feature_cols` order, rows at `idxs`. -/
def selectTable (t : Table) (cols : List String) (idxs : List Nat) : Table :=
  cols.filterMap (fun n => (getColData t n).map (fun cd => ⟨n, restrictRows cd idxs⟩))

/-- The abstract regression model: from the training design matrix,
the training target values and the prediction design matrix, produce
either a prediction function (value for the `k`-th gap row) or
`none`, modelling `model.fit` / `model.predict` raising.  The
preprocessing pipeline (median `SimpleImputer` + `OneHotEncoder`) is
part of the fitted model and is absorbed into the oracle. -/
abbrev RFModel := Table → List ℚ → Table → Option (Nat → ℚ)

/-- A family of models indexed by `(n_estimators, random_state)`,
mirroring the `RandomForestRegressor` constructor arguments. -/
abbrev RFFamily := Nat → Nat → RFModel

/-- missing_value_model.py line 10. -/
def N_ESTIMATORS : Nat := 200

/-- missing_value_model.py line 11. -/
def RANDOM_STATE : Nat := 42

/-- One iteration of the per-target loop of `fill_missing_values`
(missing_value_model.py lines 32-112), acting on the running
`(df, ai_mask)` state. -/
def fillTarget (rf : RFModel) (numeric_cols categorical_cols : List String)
    (st : Table × Mask) (target_col : String) : Table × Mask :=
  match getColData st.1 target_col with
  | some (ColData.num cells) =>
    -- line 34: skip if no missing values
    if cells.any (fun c => c.isNone) then
      let obsVals := cells.filterMap id
      -- lines 46-51 / 58-63 / 108-112: the median fallback, applied
      -- only when the median is not NaN
      let medianStep : Table × Mask :=
        match medianOf obsVals with
        | some median_val =>
            (setColData st.1 target_col
               (ColData.num (fillGapsAux (fun _ => median_val) cells 0)),
             markGapsInMask st.2 target_col cells)
        | none => st
      -- line 45: insufficient training data
      if obsVals.length < 5 then medianStep
      else
        -- line 54: features = all classified columns minus the target
        let feature_cols := (numeric_cols ++ categorical_cols).filter (fun c => c ≠ target_col)
        if feature_cols.isEmpty then medianStep
        else
          let train_idx := idxWhere cells (fun c => c.isSome)
          let predict_idx := idxWhere cells (fun c => c.isNone)
          let X_train := selectTable st.1 feature_cols train_idx
          let X_pred := selectTable st.1 feature_cols predict_idx
          -- lines 94-112: try fit/predict, except → median fallback
          match rf X_train obsVals X_pred with
          | some predictions =>
              (setColData st.1 target_col
                 (ColData.num (fillGapsAux predictions cells 0)),
               markGapsInMask st.2 target_col cells)
          | none => medianStep
    else st
  | _ => st

/-- `fill_missing_values(df)` of missing_value_model.py: classify the
columns once, then run the per-target loop over the numeric targets,
threading the mutated `(df, ai_mask)` pair. -/
def fill_missing_values (fam : RFFamily) (df : Table) : Table × Mask :=
  let numeric_cols := aiTargets df
  let categorical_cols := objColNames df
  numeric_cols.foldl (fillTarget (fam N_ESTIMATORS RANDOM_STATE) numeric_cols categorical_cols)
    (df, initMask df)

/-- Decimal-integer string parsing.  Models the `pd.to_numeric(...,
errors="coerce")` conversion on object cells: a string that is a
plain run of digits parses to that number, anything else coerces to
NaN, exactly as the coerce mode does for unparseable text. -/
def parseNum (s : String) : Option ℚ :=
  if s ≠ "" ∧ s.all (fun c => c.isDigit) then
    some ((s.foldl (fun acc c => acc * 10 + (c.toNat - 48)) 0 : Nat) : ℚ)
  else none

/-- main.py lines 108-110: every column except `transport_mode` and
`eol_method` is converted to numeric dtype, unparseable entries
becoming NaN. -/
def coerceCol (c : Col) : Col :=
  if c.name = "transport_mode" ∨ c.name = "eol_method" then c
  else match c.data with
    | ColData.num cells => ⟨c.name, ColData.num cells⟩
    | ColData.obj cells => ⟨c.name, ColData.num (cells.map (fun oc => oc.bind parseNum))⟩

def coerceNumeric (t : Table) : Table := t.map coerceCol

/-- main.py line 105: `df.columns = [col.lower() for col in df.columns]`. -/
def lowercaseCols (t : Table) : Table := t.map (fun c => ⟨c.name.toLower, c.data⟩)

/-- The optional caller-supplied defaults (main.py `CustomDefaults`). -/
structure CustomDefaults where
  co2_per_kwh_extraction : Option ℚ
  co2_per_kwh_manufacturing : Option ℚ
  recycling_yield_default : Option ℚ
  transport_cost_per_km_default : Option ℚ
  avg_energy_extraction_mj : Option ℚ
deriving DecidableEq

/-- The resolved total parameter set (main.py `defaults` dict). -/
structure Defaults where
  co2_kwh_ext : ℚ
  co2_kwh_man : ℚ
  rec_yield : ℚ
  avg_energy_ext : ℚ
  transport_cost_km : ℚ
deriving DecidableEq

/-- `get_default_imputation_values` of main.py lines 70-95.  System
constants (source decimals): 0.5, 0.35, 90.0, 200.0, 0.005, written
here as exact rationals. -/
def get_default_imputation_values (custom : Option CustomDefaults) : Defaults :=
  let d : Defaults :=
    { co2_kwh_ext := 1 / 2
      co2_kwh_man := 7 / 20
      rec_yield := 90
      avg_energy_ext := 200
      transport_cost_km := 1 / 200 }
  match custom with
  | none => d
  | some c =>
      { co2_kwh_ext := c.co2_per_kwh_extraction.getD d.co2_kwh_ext
        co2_kwh_man := c.co2_per_kwh_manufacturing.getD d.co2_kwh_man
        rec_yield := c.recycling_yield_default.getD d.rec_yield
        avg_energy_ext := c.avg_energy_extraction_mj.getD d.avg_energy_ext
        transport_cost_km := c.transport_cost_per_km_default.getD d.transport_cost_km }

/-- The resolved defaults when the caller supplies none. -/
def resolvedSystemDefaults : Defaults := get_default_imputation_values none

/-- `Series.fillna(v)` with a constant scalar. -/
def fillnaConst {α : Type} (cells : List (Option α)) (v : α) : List (Option α) :=
  cells.map (fun c => some (c.getD v))

/-- `df.loc[missing, dst] = df.loc[missing, src] * k`: missing cells
of `dst` receive the aligned cell of `src` scaled by `k` (NaN stays
NaN, as NaN * k is NaN); present cells are untouched. -/
def fillFromScaled : List (Option ℚ) → List (Option ℚ) → ℚ → List (Option ℚ)
  | [], _, _ => []
  | d :: ds, [], k => (if d.isNone then none else d) :: fillFromScaled ds [] k
  | d :: ds, s :: ss, k =>
      (if d.isNone then s.map (fun x => x * k) else d) :: fillFromScaled ds ss k

/-- main.py lines 125-126: fill missing `energy_manufacturing` with
`avg_energy_ext * 0.05`.  `none` models the KeyError raised when the
column is absent; after the numeric coercion of lines 108-110 the
column, when present, is numeric. -/
def fillEnergyMan (d : Defaults) (t : Table) : Option Table :=
  match getColData t "energy_manufacturing" with
  | some (ColData.num em) =>
      some (if em.any (fun c => c.isNone)
            then setColData t "energy_manufacturing"
                   (ColData.num (fillnaConst em (d.avg_energy_ext * (1 / 20))))
            else t)
  | _ => none

/-- main.py lines 130-132: missing `co2_manufacturing` cells become
`energy_manufacturing * co2_kwh_man`, reading the (already filled)
energy column. -/
def fillCo2Man (d : Defaults) (t : Table) : Option Table :=
  match getColData t "co2_manufacturing" with
  | some (ColData.num cm) =>
      if cm.any (fun c => c.isNone) then
        match getColData t "energy_manufacturing" with
        | some (ColData.num em) =>
            some (setColData t "co2_manufacturing"
                    (ColData.num (fillFromScaled cm em d.co2_kwh_man)))
        | _ => none
      else some t
  | _ => none

/-- main.py lines 135-137: missing `transport_cost` cells become
`transport_km * transport_cost_km`. -/
def fillTransportCost (d : Defaults) (t : Table) : Option Table :=
  match getColData t "transport_cost" with
  | some (ColData.num tc) =>
      if tc.any (fun c => c.isNone) then
        match getColData t "transport_km" with
        | some (ColData.num tk) =>
            some (setColData t "transport_cost"
                    (ColData.num (fillFromScaled tc tk d.transport_cost_km)))
        | _ => none
      else some t
  | _ => none

/-- Step 2 of `run_hybrid_imputation` (main.py lines 121-137): the
three domain-default rules, in source order. -/
def domainFill (d : Defaults) (t : Table) : Option Table :=
  (fillEnergyMan d t).bind (fun t1 => (fillCo2Man d t1).bind (fillTransportCost d))

/-- Step 3 of `run_hybrid_imputation` (main.py lines 139-150): numeric
columns with remaining NaN are filled with the column mean (0 when the
mean is NaN); object columns with the mode ("unknown" when the mode is
empty). -/
def lrColData : ColData → ColData
  | ColData.num cells =>
      if cells.any (fun c => c.isNone) then
        ColData.num (fillnaConst cells ((meanOf (cells.filterMap id)).getD 0))
      else ColData.num cells
  | ColData.obj cells =>
      if cells.any (fun c => c.isNone) then
        ColData.obj (fillnaConst cells ((modeOf (cells.filterMap id)).getD "unknown"))
      else ColData.obj cells

def lastResortFill (t : Table) : Table := t.map (fun c => ⟨c.name, lrColData c.data⟩)

/-- `run_hybrid_imputation(df, defaults)` of main.py lines 98-152:
lowercase the column labels, coerce to numeric, run the AI engine
(discarding its mask, line 116), apply the domain-default rules, then
the mean/mode last resort.  `none` models the KeyError of step 2 when
a required column is absent; the embedded `fill_missing_values` is
total, so the `try/except` of lines 114-119 never takes its except
branch. -/
def run_hybrid_imputation (fam : RFFamily) (defaults : Defaults) (df : Table) : Option Table :=
  let df₁ := coerceNumeric (lowercaseCols df)
  let df₂ := (fill_missing_values fam df₁).1
  (domainFill defaults df₂).map lastResortFill

/-- A model whose fit/predict always raises (returns `none`): the
degenerate-data scenario of missing_value_model.py lines 106-112. -/
def noModel : RFModel := fun _ _ _ => none

def failFam : RFFamily := fun _ _ => noModel

/-- Modelled from the spec: spec.md §4.6 prescribes the stage order
classification, default resolution, rule-based derivation (§4.3),
then per-field supervised imputation (§4.4), then central-tendency
fallback (§4.5).  This pipeline runs the same embedded stages in that
claimed order (derivation before the supervised imputer), for
comparison with `run_hybrid_imputation`. -/
def specOrderPipeline (fam : RFFamily) (defaults : Defaults) (df : Table) : Option Table :=
  let df₁ := coerceNumeric (lowercaseCols df)
  (domainFill defaults df₁).map (fun df₂ => lastResortFill (fill_missing_values fam df₂).1)

/- Concrete input tables used by the counterexamples. -/

/-- Six rows; `co2_manufacturing` has five observed values and one
gap, `energy_manufacturing` is fully observed at 100. -/
def tOrder : Table :=
  [⟨"energy_manufacturing", ColData.num (List.replicate 6 (some 100))⟩,
   ⟨"co2_manufacturing", ColData.num [some 1, some 1, some 1, some 1, some 1, none]⟩,
   ⟨"transport_cost", ColData.num (List.replicate 6 (some 1))⟩,
   ⟨"transport_km", ColData.num (List.replicate 6 (some 1))⟩]

/-- One row with `energy_manufacturing` absent. -/
def tEM : Table :=
  [⟨"energy_manufacturing", ColData.num [none]⟩,
   ⟨"co2_manufacturing", ColData.num [some 1]⟩,
   ⟨"transport_cost", ColData.num [some 1]⟩,
   ⟨"transport_km", ColData.num [some 1]⟩]

/-- Four rows; the excluded field `functional_unit_kg` has observed
values 0, 0, 3 and one gap, every other column fully observed. -/
def tFunc : Table :=
  [⟨"functional_unit_kg", ColData.num [some 0, some 0, some 3, none]⟩,
   ⟨"energy_manufacturing", ColData.num (List.replicate 4 (some 1))⟩,
   ⟨"co2_manufacturing", ColData.num (List.replicate 4 (some 1))⟩,
   ⟨"transport_cost", ColData.num (List.replicate 4 (some 1))⟩,
   ⟨"transport_km", ColData.num (List.replicate 4 (some 1))⟩]

/-- One row whose `weight_kg` holds the unparseable string "abc". -/
def tAbc : Table :=
  [⟨"weight_kg", ColData.obj [some "abc"]⟩,
   ⟨"energy_manufacturing", ColData.num [some 1]⟩,
   ⟨"co2_manufacturing", ColData.num [some 1]⟩,
   ⟨"transport_cost", ColData.num [some 1]⟩,
   ⟨"transport_km", ColData.num [some 1]⟩]

/-- One row whose `weight_kg` column is wholly absent. -/
def tW7 : Table :=
  [⟨"weight_kg", ColData.num [none]⟩,
   ⟨"energy_manufacturing", ColData.num [some 1]⟩,
   ⟨"co2_manufacturing", ColData.num [some 1]⟩,
   ⟨"transport_cost", ColData.num [some 1]⟩,
   ⟨"transport_km", ColData.num [some 1]⟩]

/-- One row whose `material_cost` is present at 7; used to exercise
value preservation through the whole pipeline. -/
def tC4w : Table :=
  [⟨"material_cost", ColData.num [some 7]⟩,
   ⟨"energy_manufacturing", ColData.num [some 1]⟩,
   ⟨"co2_manufacturing", ColData.num [some 1]⟩,
   ⟨"transport_cost", ColData.num [some 1]⟩,
   ⟨"transport_km", ColData.num [some 1]⟩]

/-- Five rows of `weight_kg` with four observed values and one gap:
below the training threshold. -/
def tC5w : Table :=
  [⟨"weight_kg", ColData.num [some 1, some 2, some 3, some 4, none]⟩]

/-- Two rows whose `material_cost` is wholly absent, every other
column observed. -/
def tC7w : Table :=
  [⟨"material_cost", ColData.num [none, none]⟩,
   ⟨"energy_manufacturing", ColData.num [some 1, some 1]⟩,
   ⟨"co2_manufacturing", ColData.num [some 1, some 1]⟩,
   ⟨"transport_cost", ColData.num [some 1, some 1]⟩,
   ⟨"transport_km", ColData.num [some 1, some 1]⟩]

/-- Six rows: `weight_kg` has five observed values and one gap (so a
model would be trained), plus a feature column. -/
def tC8w : Table :=
  [⟨"weight_kg", ColData.num [some 10, some 20, some 30, some 40, some 50, none]⟩,
   ⟨"material_cost", ColData.num
      [some 1, some 1, some 1, some 1, some 1, some 1]⟩]

/-- One row for the manufacturing-emissions derivation scenario:
emissions absent, manufacturing energy 50. -/
def tC9w : Table :=
  [⟨"co2_manufacturing", ColData.num [none]⟩,
   ⟨"energy_manufacturing", ColData.num [some 50]⟩,
   ⟨"transport_cost", ColData.num [some 1]⟩,
   ⟨"transport_km", ColData.num [some 1]⟩]

/-- One row with both manufacturing energy and emissions absent. -/
def tC10w : Table :=
  [⟨"energy_manufacturing", ColData.num [none]⟩,
   ⟨"co2_manufacturing", ColData.num [none]⟩,
   ⟨"transport_cost", ColData.num [some 1]⟩,
   ⟨"transport_km", ColData.num [some 1]⟩]

/-- A numeric column with observed values 0, 0, 3 and a gap, and a
categorical column with six "road", two "rail" and two gaps — the
mode scenario of the spec. -/
def tLRw : Table :=
  [⟨"a", ColData.num [some 0, some 0, some 3, none]⟩,
   ⟨"b", ColData.obj
      [some "road", some "road", some "road", some "rail", some "road",
       some "rail", some "road", some "road", none, none]⟩]

/-- Pointwise relation between an original cell list, a current cell
list and the mask bits of that column: present original cells keep
their value, and a bit is `true` exactly when the original cell was
missing and the current cell is filled. -/
def cellsRel {α : Type} (cs₀ cs : List (Option α)) (bs : List Bool) : Prop :=
  cs.length = cs₀.length ∧ bs.length = cs₀.length ∧
  ∀ i, i < cs₀.length →
    (∀ v, cs₀[i]? = some (some v) → cs[i]? = some (some v)) ∧
    (bs[i]? = some true ↔ (cs₀[i]? = some none ∧ ∃ v, cs[i]? = some (some v)))

/-- `cellsRel` lifted to column payloads (dtype is preserved). -/
def colRel : ColData → ColData → List Bool → Prop
  | ColData.num cs₀, ColData.num cs, bs => cellsRel cs₀ cs bs
  | ColData.obj cs₀, ColData.obj cs, bs => cellsRel cs₀ cs bs
  | _, _, _ => False

/-- Invariant threaded through the per-target loop of
`fill_missing_values`, relative to the input table `df₀`: the table
keeps its column structure, the mask stays parallel to it, and every
column satisfies `colRel` against its original payload. -/
def AIInv (df₀ : Table) (st : Table × Mask) : Prop :=
  (∀ n, (getColData st.1 n).isSome = (getColData df₀ n).isSome) ∧
  (∀ n, (getMaskBits st.2 n).isSome = (getColData df₀ n).isSome) ∧
  (∀ n cd₀ cd bs, getColData df₀ n = some cd₀ → getColData st.1 n = some cd →
     getMaskBits st.2 n = some bs → colRel cd₀ cd bs)

/- ------------------------------------------------------------------
   Basic lemmas about list indexing and the cell-filling primitives.
   ------------------------------------------------------------------ -/

theorem getq_isLt {α : Type} : ∀ (l : List α) (i : Nat) (a : α), l[i]? = some a → i < l.length := by
  intro l
  induction l with
  | nil => intro i a h; simp at h
  | cons x xs ih =>
    intro i a h
    cases i with
    | zero => simp
    | succ j =>
      simp only [List.getElem?_cons_succ] at h
      exact Nat.succ_lt_succ (ih j a h)

theorem getq_of_lt {α : Type} : ∀ (l : List α) (i : Nat), i < l.length → ∃ a, l[i]? = some a := by
  intro l
  induction l with
  | nil => intro i h; simp at h
  | cons x xs ih =>
    intro i h
    cases i with
    | zero => exact ⟨x, by simp⟩
    | succ j =>
      have := ih j (Nat.lt_of_succ_lt_succ h)
      simpa using this

theorem fillGapsAux_length (p : Nat → ℚ) :
    ∀ (cells : List (Option ℚ)) (k : Nat), (fillGapsAux p cells k).length = cells.length := by
  intro cells
  induction cells with
  | nil => intro k; rfl
  | cons c rest ih =>
    intro k
    cases c with
    | some v => simp [fillGapsAux, ih]
    | none => simp [fillGapsAux, ih]

theorem fillGapsAux_some (p : Nat → ℚ) :
    ∀ (cells : List (Option ℚ)) (k i : Nat) (v : ℚ),
      cells[i]? = some (some v) → (fillGapsAux p cells k)[i]? = some (some v) := by
  intro cells
  induction cells with
  | nil => intro k i v h; simp at h
  | cons c rest ih =>
    intro k i v h
    cases i with
    | zero =>
      simp only [List.getElem?_cons_zero, Option.some.injEq] at h
      subst h
      simp [fillGapsAux]
    | succ j =>
      simp only [List.getElem?_cons_succ] at h
      cases c with
      | some w => simpa [fillGapsAux] using ih k j v h
      | none => simpa [fillGapsAux] using ih (k + 1) j v h

theorem fillGapsAux_isSome (p : Nat → ℚ) :
    ∀ (cells : List (Option ℚ)) (k i : Nat),
      i < cells.length → ∃ w, (fillGapsAux p cells k)[i]? = some (some w) := by
  intro cells
  induction cells with
  | nil => intro k i h; simp at h
  | cons c rest ih =>
    intro k i h
    cases i with
    | zero =>
      cases c with
      | some v => exact ⟨v, by simp [fillGapsAux]⟩
      | none => exact ⟨p k, by simp [fillGapsAux]⟩
    | succ j =>
      have hj : j < rest.length := Nat.lt_of_succ_lt_succ (by simpa using h)
      cases c with
      | some v => simpa [fillGapsAux] using ih k j hj
      | none => simpa [fillGapsAux] using ih (k + 1) j hj

theorem fillGapsAux_const (m : ℚ) :
    ∀ (cells : List (Option ℚ)) (k i : Nat) (c : Option ℚ),
      cells[i]? = some c → (fillGapsAux (fun _ => m) cells k)[i]? = some (some (c.getD m)) := by
  intro cells
  induction cells with
  | nil => intro k i c h; simp at h
  | cons c₀ rest ih =>
    intro k i c h
    cases i with
    | zero =>
      simp only [List.getElem?_cons_zero, Option.some.injEq] at h
      subst h
      cases c₀ with
      | some v => simp [fillGapsAux]
      | none => simp [fillGapsAux]
    | succ j =>
      simp only [List.getElem?_cons_succ] at h
      cases c₀ with
      | some w => simpa [fillGapsAux] using ih k j c h
      | none => simpa [fillGapsAux] using ih (k + 1) j c h

theorem fillGapsAux_mem_isSome (p : Nat → ℚ) :
    ∀ (cells : List (Option ℚ)) (k : Nat) (c : Option ℚ),
      c ∈ fillGapsAux p cells k → c.isSome := by
  intro cells
  induction cells with
  | nil => intro k c h; simp [fillGapsAux] at h
  | cons c₀ rest ih =>
    intro k c h
    cases c₀ with
    | some v =>
      simp only [fillGapsAux, List.mem_cons] at h
      rcases h with h | h
      · subst h; rfl
      · exact ih k c h
    | none =>
      simp only [fillGapsAux, List.mem_cons] at h
      rcases h with h | h
      · subst h; rfl
      · exact ih (k + 1) c h

theorem maskGaps_length :
    ∀ (cells : List (Option ℚ)) (bs : List Bool),
      cells.length = bs.length → (maskGaps cells bs).length = bs.length := by
  intro cells
  induction cells with
  | nil => intro bs h; simp [maskGaps]
  | cons c rest ih =>
    intro bs h
    cases bs with
    | nil => simp at h
    | cons b bs =>
      have hrb : rest.length = bs.length := by simpa using h
      cases c with
      | some v => simp [maskGaps, ih bs hrb]
      | none => simp [maskGaps, ih bs hrb]

theorem maskGaps_some :
    ∀ (cells : List (Option ℚ)) (bs : List Bool) (i : Nat) (v : ℚ),
      cells[i]? = some (some v) → (maskGaps cells bs)[i]? = bs[i]? := by
  intro cells
  induction cells with
  | nil => intro bs i v h; simp at h
  | cons c rest ih =>
    intro bs i v h
    cases bs with
    | nil =>
      cases c with
      | some w => simp [maskGaps]
      | none => simp [maskGaps]
    | cons b bs =>
      cases i with
      | zero =>
        simp only [List.getElem?_cons_zero, Option.some.injEq] at h
        subst h
        simp [maskGaps]
      | succ j =>
        simp only [List.getElem?_cons_succ] at h
        cases c with
        | some w => simpa [maskGaps] using ih bs j v h
        | none => simpa [maskGaps] using ih bs j v h

theorem maskGaps_none :
    ∀ (cells : List (Option ℚ)) (bs : List Bool) (i : Nat),
      cells[i]? = some none → i < bs.length → (maskGaps cells bs)[i]? = some true := by
  intro cells
  induction cells with
  | nil => intro bs i h hlt; simp at h
  | cons c rest ih =>
    intro bs i h hlt
    cases bs with
    | nil => simp at hlt
    | cons b bs =>
      cases i with
      | zero =>
        simp only [List.getElem?_cons_zero, Option.some.injEq] at h
        subst h
        simp [maskGaps]
      | succ j =>
        simp only [List.getElem?_cons_succ] at h
        have hj : j < bs.length := Nat.lt_of_succ_lt_succ (by simpa using hlt)
        cases c with
        | some w => simpa [maskGaps] using ih bs j h hj
        | none => simpa [maskGaps] using ih bs j h hj

theorem fillnaConst_get {α : Type} (v : α) :
    ∀ (cells : List (Option α)) (i : Nat) (c : Option α),
      cells[i]? = some c → (fillnaConst cells v)[i]? = some (some (c.getD v)) := by
  intro cells i c h
  simp [fillnaConst, List.getElem?_map, h]

theorem fillFromScaled_length (k : ℚ) :
    ∀ (dst src : List (Option ℚ)), (fillFromScaled dst src k).length = dst.length := by
  intro dst
  induction dst with
  | nil => intro src; rfl
  | cons d ds ih =>
    intro src
    cases src with
    | nil => simp [fillFromScaled, ih]
    | cons s ss => simp [fillFromScaled, ih]

theorem fillFromScaled_some (k : ℚ) :
    ∀ (dst src : List (Option ℚ)) (i : Nat) (v : ℚ),
      dst[i]? = some (some v) → (fillFromScaled dst src k)[i]? = some (some v) := by
  intro dst
  induction dst with
  | nil => intro src i v h; simp at h
  | cons d ds ih =>
    intro src i v h
    cases i with
    | zero =>
      simp only [List.getElem?_cons_zero, Option.some.injEq] at h
      subst h
      cases src with
      | nil => simp [fillFromScaled]
      | cons s ss => simp [fillFromScaled]
    | succ j =>
      simp only [List.getElem?_cons_succ] at h
      cases src with
      | nil => simpa [fillFromScaled] using ih [] j v h
      | cons s ss => simpa [fillFromScaled] using ih ss j v h

theorem fillFromScaled_none (k : ℚ) :
    ∀ (dst src : List (Option ℚ)) (i : Nat) (s : Option ℚ),
      dst[i]? = some none → src[i]? = some s →
      (fillFromScaled dst src k)[i]? = some (s.map (fun x => x * k)) := by
  intro dst
  induction dst with
  | nil => intro src i s h hs; simp at h
  | cons d ds ih =>
    intro src i s h hs
    cases src with
    | nil => simp at hs
    | cons s₀ ss =>
      cases i with
      | zero =>
        simp only [List.getElem?_cons_zero, Option.some.injEq] at h hs
        subst h; subst hs
        simp [fillFromScaled]
      | succ j =>
        simp only [List.getElem?_cons_succ] at h hs
        simpa [fillFromScaled] using ih ss j s h hs

/- ------------------------------------------------------------------
   Lemmas about column lookup and update.
   ------------------------------------------------------------------ -/

theorem getColData_set_self :
    ∀ (t : Table) (n : String) (d c : ColData),
      getColData t n = some c → getColData (setColData t n d) n = some d := by
  intro t
  induction t with
  | nil => intro n d c h; simp [getColData] at h
  | cons col cols ih =>
    intro n d c h
    obtain ⟨cname, cdata⟩ := col
    by_cases hn : cname = n
    · simp [getColData, setColData, hn]
    · simp only [getColData, setColData, if_neg hn] at h ⊢
      exact ih n d c h

theorem getColData_set_other :
    ∀ (t : Table) (n m : String) (d : ColData), m ≠ n →
      getColData (setColData t n d) m = getColData t m := by
  intro t
  induction t with
  | nil => intro n m d h; simp [getColData, setColData]
  | cons col cols ih =>
    intro n m d h
    obtain ⟨cname, cdata⟩ := col
    by_cases hn : cname = n
    · have hnm : ¬ n = m := fun hc => h hc.symm
      simp [getColData, setColData, hn, hnm]
    · by_cases hm : cname = m
      · simp [getColData, setColData, if_neg hn, hm, h]
      · simp only [getColData, setColData, if_neg hn, if_neg hm]
        exact ih n m d h

theorem getColData_set_isSome :
    ∀ (t : Table) (n m : String) (d : ColData),
      (getColData (setColData t n d) m).isSome = (getColData t m).isSome := by
  intro t
  induction t with
  | nil => intro n m d; simp [getColData, setColData]
  | cons col cols ih =>
    intro n m d
    obtain ⟨cname, cdata⟩ := col
    by_cases hn : cname = n
    · by_cases hm : cname = m
      · have hnm : n = m := hn.symm.trans hm
        simp [getColData, setColData, hn, hnm]
      · have hnm : ¬ n = m := fun hc => hm (hn.trans hc)
        simp [getColData, setColData, hn, hnm]
    · by_cases hm : cname = m
      · have hmn : ¬ m = n := fun hc => hn (hm.trans hc)
        simp [getColData, setColData, hm, hmn]
      · simp only [getColData, setColData, if_neg hn, if_neg hm]
        exact ih n m d

theorem getMaskBits_set_self :
    ∀ (m : Mask) (n : String) (bs cs : List Bool),
      getMaskBits m n = some cs → getMaskBits (setMaskBits m n bs) n = some bs := by
  intro m
  induction m with
  | nil => intro n bs cs h; simp [getMaskBits] at h
  | cons col cols ih =>
    intro n bs cs h
    obtain ⟨cname, cbits⟩ := col
    by_cases hn : cname = n
    · simp [getMaskBits, setMaskBits, hn]
    · simp only [getMaskBits, setMaskBits, if_neg hn] at h ⊢
      exact ih n bs cs h

theorem getMaskBits_set_other :
    ∀ (m : Mask) (n k : String) (bs : List Bool), k ≠ n →
      getMaskBits (setMaskBits m n bs) k = getMaskBits m k := by
  intro m
  induction m with
  | nil => intro n k bs h; simp [getMaskBits, setMaskBits]
  | cons col cols ih =>
    intro n k bs h
    obtain ⟨cname, cbits⟩ := col
    by_cases hn : cname = n
    · have hnk : ¬ n = k := fun hc => h hc.symm
      simp [getMaskBits, setMaskBits, hn, hnk]
    · by_cases hk : cname = k
      · simp [getMaskBits, setMaskBits, if_neg hn, hk, h]
      · simp only [getMaskBits, setMaskBits, if_neg hn, if_neg hk]
        exact ih n k bs h

theorem getMaskBits_set_isSome :
    ∀ (m : Mask) (n k : String) (bs : List Bool),
      (getMaskBits (setMaskBits m n bs) k).isSome = (getMaskBits m k).isSome := by
  intro m
  induction m with
  | nil => intro n k bs; simp [getMaskBits, setMaskBits]
  | cons col cols ih =>
    intro n k bs
    obtain ⟨cname, cbits⟩ := col
    by_cases hn : cname = n
    · by_cases hk : cname = k
      · have hnk : n = k := hn.symm.trans hk
        simp [getMaskBits, setMaskBits, hn, hnk]
      · have hnk : ¬ n = k := fun hc => hk (hn.trans hc)
        simp [getMaskBits, setMaskBits, hn, hnk]
    · by_cases hk : cname = k
      · have hkn : ¬ k = n := fun hc => hn (hk.trans hc)
        simp [getMaskBits, setMaskBits, hk, hkn]
      · simp only [getMaskBits, setMaskBits, if_neg hn, if_neg hk]
        exact ih n k bs

theorem getMaskBits_mark_self :
    ∀ (m : Mask) (target : String) (cells : List (Option ℚ)) (bs : List Bool),
      getMaskBits m target = some bs →
      getMaskBits (markGapsInMask m target cells) target = some (maskGaps cells bs) := by
  intro m target cells bs h
  simp only [markGapsInMask, h]
  exact getMaskBits_set_self m target (maskGaps cells bs) bs h

theorem getMaskBits_mark_other :
    ∀ (m : Mask) (target : String) (cells : List (Option ℚ)) (n : String), n ≠ target →
      getMaskBits (markGapsInMask m target cells) n = getMaskBits m n := by
  intro m target cells n h
  simp only [markGapsInMask]
  cases hbs : getMaskBits m target with
  | none => rfl
  | some bs => exact getMaskBits_set_other m target n (maskGaps cells bs) h

theorem getMaskBits_mark_isSome :
    ∀ (m : Mask) (target : String) (cells : List (Option ℚ)) (n : String),
      (getMaskBits (markGapsInMask m target cells) n).isSome = (getMaskBits m n).isSome := by
  intro m target cells n
  simp only [markGapsInMask]
  cases hbs : getMaskBits m target with
  | none => rfl
  | some bs => exact getMaskBits_set_isSome m target n (maskGaps cells bs)

theorem getMaskBits_initMask :
    ∀ (t : Table) (n : String),
      getMaskBits (initMask t) n
        = (getColData t n).map (fun cd => List.replicate cd.length false) := by
  intro t
  induction t with
  | nil => intro n; simp [initMask, getMaskBits, getColData]
  | cons col cols ih =>
    intro n
    by_cases hn : col.name = n
    · simp [initMask, getMaskBits, getColData, hn]
    · simp only [initMask, getMaskBits, getColData, hn, if_false, if_neg hn, List.map_cons]
      exact ih n

theorem getColData_lastResort :
    ∀ (t : Table) (n : String),
      getColData (lastResortFill t) n = (getColData t n).map lrColData := by
  intro t
  induction t with
  | nil => intro n; simp [lastResortFill, getColData]
  | cons col cols ih =>
    intro n
    by_cases hn : col.name = n
    · simp [lastResortFill, getColData, hn]
    · simp only [lastResortFill, getColData, hn, if_false, if_neg hn, List.map_cons]
      exact ih n

/- ------------------------------------------------------------------
   Miscellaneous helper lemmas.
   ------------------------------------------------------------------ -/

theorem any_isNone_of_get :
    ∀ (cells : List (Option ℚ)) (i : Nat),
      cells[i]? = some none → cells.any (fun c => c.isNone) = true := by
  intro cells
  induction cells with
  | nil => intro i h; simp at h
  | cons c rest ih =>
    intro i h
    cases i with
    | zero =>
      simp only [List.getElem?_cons_zero, Option.some.injEq] at h
      subst h
      simp
    | succ j =>
      simp only [List.getElem?_cons_succ] at h
      simp [ih j h]

theorem all_some_of_any_false :
    ∀ (cells : List (Option ℚ)), cells.any (fun c => c.isNone) = false →
      ∀ (i : Nat) (c : Option ℚ), cells[i]? = some c → ∃ v, c = some v := by
  intro cells hany i c h
  cases c with
  | some v => exact ⟨v, rfl⟩
  | none => rw [any_isNone_of_get cells i h] at hany; cases hany

theorem fillGapsAux_any_false (p : Nat → ℚ) (cells : List (Option ℚ)) (k : Nat) :
    (fillGapsAux p cells k).any (fun c => c.isNone) = false := by
  rw [List.any_eq_false]
  intro c hc
  have := fillGapsAux_mem_isSome p cells k c hc
  cases c with
  | some v => simp
  | none => simp at this

theorem insertSorted_length (x : ℚ) :
    ∀ (l : List ℚ), (insertSorted x l).length = l.length + 1 := by
  intro l
  induction l with
  | nil => rfl
  | cons y ys ih =>
    by_cases h : x ≤ y
    · simp [insertSorted, h]
    · simp [insertSorted, h, ih]

theorem sortedQ_length (l : List ℚ) : (sortedQ l).length = l.length := by
  induction l with
  | nil => rfl
  | cons x xs ih => simp [sortedQ, insertSorted_length, List.foldr_cons] at ih ⊢; omega

theorem medianOf_isSome (l : List ℚ) (h : l ≠ []) : ∃ m, medianOf l = some m := by
  have hlen : (sortedQ l).length ≠ 0 := by
    rw [sortedQ_length]
    exact fun hc => h (List.eq_nil_of_length_eq_zero hc)
  simp only [medianOf]
  by_cases hodd : (sortedQ l).length % 2 = 1
  · rw [if_neg hlen, if_pos hodd]; exact ⟨_, rfl⟩
  · rw [if_neg hlen, if_neg hodd]; exact ⟨_, rfl⟩

theorem filterMap_id_nil_of_all_none :
    ∀ (cells : List (Option ℚ)), (∀ c ∈ cells, c = none) → cells.filterMap id = [] := by
  intro cells
  induction cells with
  | nil => intro _; rfl
  | cons c rest ih =>
    intro h
    have hc : c = none := h c (List.mem_cons_self c rest)
    subst hc
    rw [show List.filterMap id (none :: rest) = List.filterMap id rest from by simp]
    exact ih (fun x hx => h x (List.mem_cons_of_mem none hx))

/- ------------------------------------------------------------------
   Behaviour of one iteration of the per-target loop.
   ------------------------------------------------------------------ -/

theorem fillTarget_skip (rf : RFModel) (nc cc : List String) (st : Table × Mask)
    (target : String) (cells : List (Option ℚ))
    (hcd : getColData st.1 target = some (ColData.num cells))
    (hany : cells.any (fun c => c.isNone) = false) :
    fillTarget rf nc cc st target = st := by
  simp [fillTarget, hcd, hany]

theorem fillTarget_none (rf : RFModel) (nc cc : List String) (st : Table × Mask)
    (target : String) (h : ∀ cells, getColData st.1 target ≠ some (ColData.num cells)) :
    fillTarget rf nc cc st target = st := by
  unfold fillTarget
  cases hcd : getColData st.1 target with
  | none => rfl
  | some cd =>
    cases cd with
    | num cells => exact absurd hcd (h cells)
    | obj cells => rfl

theorem fillTarget_self_small (rf : RFModel) (nc cc : List String) (st : Table × Mask)
    (target : String) (cells : List (Option ℚ)) (mv : ℚ)
    (hcd : getColData st.1 target = some (ColData.num cells))
    (hany : cells.any (fun c => c.isNone) = true)
    (h5 : (cells.filterMap id).length < 5)
    (hm : medianOf (cells.filterMap id) = some mv) :
    fillTarget rf nc cc st target
      = (setColData st.1 target (ColData.num (fillGapsAux (fun _ => mv) cells 0)),
         markGapsInMask st.2 target cells) := by
  simp [fillTarget, hcd, hany, h5, hm]

theorem fillTarget_self_skipNoMedian (rf : RFModel) (nc cc : List String)
    (st : Table × Mask) (target : String) (cells : List (Option ℚ))
    (hcd : getColData st.1 target = some (ColData.num cells))
    (hany : cells.any (fun c => c.isNone) = true)
    (h5 : (cells.filterMap id).length < 5)
    (hm : medianOf (cells.filterMap id) = none) :
    fillTarget rf nc cc st target = st := by
  simp [fillTarget, hcd, hany, h5, hm]

theorem fillTarget_self_noModel (nc cc : List String) (st : Table × Mask)
    (target : String) (cells : List (Option ℚ)) (mv : ℚ)
    (hcd : getColData st.1 target = some (ColData.num cells))
    (hany : cells.any (fun c => c.isNone) = true)
    (hm : medianOf (cells.filterMap id) = some mv) :
    fillTarget noModel nc cc st target
      = (setColData st.1 target (ColData.num (fillGapsAux (fun _ => mv) cells 0)),
         markGapsInMask st.2 target cells) := by
  by_cases h5 : (cells.filterMap id).length < 5
  · exact fillTarget_self_small noModel nc cc st target cells mv hcd hany h5 hm
  · simp only [fillTarget, hcd, hany, if_true, h5, if_false]
    by_cases hf : ((nc ++ cc).filter (fun c => c ≠ target)).isEmpty = true
    · rw [if_pos hf, hm]
    · rw [if_neg hf]
      simp only [noModel]
      rw [hm]

theorem fillTarget_other (rf : RFModel) (nc cc : List String) (st : Table × Mask)
    (target n : String) (hne : n ≠ target) :
    getColData (fillTarget rf nc cc st target).1 n = getColData st.1 n := by
  unfold fillTarget
  cases hcd : getColData st.1 target with
  | none => rfl
  | some cd =>
    cases cd with
    | obj cells => rfl
    | num cells =>
      by_cases hany : cells.any (fun c => c.isNone) = true
      · simp only [hany, if_true]
        by_cases h5 : (cells.filterMap id).length < 5
        · simp only [h5, if_true]
          cases hm : medianOf (cells.filterMap id) with
          | none => rfl
          | some mv => exact getColData_set_other st.1 target n _ hne
        · simp only [h5, if_false]
          by_cases hf : ((nc ++ cc).filter (fun c => c ≠ target)).isEmpty = true
          · simp only [hf, if_true]
            cases hm : medianOf (cells.filterMap id) with
            | none => rfl
            | some mv => exact getColData_set_other st.1 target n _ hne
          · simp only [hf, if_false]
            cases hrf : rf (selectTable st.1 ((nc ++ cc).filter (fun c => c ≠ target))
                (idxWhere cells (fun c => c.isSome))) (cells.filterMap id)
                (selectTable st.1 ((nc ++ cc).filter (fun c => c ≠ target))
                  (idxWhere cells (fun c => c.isNone))) with
            | some p => exact getColData_set_other st.1 target n _ hne
            | none =>
              cases hm : medianOf (cells.filterMap id) with
              | none => rfl
              | some mv => exact getColData_set_other st.1 target n _ hne
      · simp only [Bool.not_eq_true] at hany
        simp [hany]

theorem fillTarget_cases (rf : RFModel) (nc cc : List String) (st : Table × Mask)
    (target : String) :
    fillTarget rf nc cc st target = st ∨
    ∃ cells p, getColData st.1 target = some (ColData.num cells) ∧
      fillTarget rf nc cc st target
        = (setColData st.1 target (ColData.num (fillGapsAux p cells 0)),
           markGapsInMask st.2 target cells) := by
  unfold fillTarget
  cases hcd : getColData st.1 target with
  | none => left; rfl
  | some cd =>
    cases cd with
    | obj cells => left; rfl
    | num cells =>
      by_cases hany : cells.any (fun c => c.isNone) = true
      · simp only [hany, if_true]
        by_cases h5 : (cells.filterMap id).length < 5
        · simp only [h5, if_true]
          cases hm : medianOf (cells.filterMap id) with
          | none => left; rfl
          | some mv => right; exact ⟨cells, fun _ => mv, rfl, rfl⟩
        · simp only [h5, if_false]
          by_cases hf : ((nc ++ cc).filter (fun c => c ≠ target)).isEmpty = true
          · simp only [hf, if_true]
            cases hm : medianOf (cells.filterMap id) with
            | none => left; rfl
            | some mv => right; exact ⟨cells, fun _ => mv, rfl, rfl⟩
          · simp only [hf, if_false]
            cases hrf : rf (selectTable st.1 ((nc ++ cc).filter (fun c => c ≠ target))
                (idxWhere cells (fun c => c.isSome))) (cells.filterMap id)
                (selectTable st.1 ((nc ++ cc).filter (fun c => c ≠ target))
                  (idxWhere cells (fun c => c.isNone))) with
            | some p => right; exact ⟨cells, p, rfl, rfl⟩
            | none =>
              cases hm : medianOf (cells.filterMap id) with
              | none => left; rfl
              | some mv => right; exact ⟨cells, fun _ => mv, rfl, rfl⟩
      · simp only [Bool.not_eq_true] at hany
        left
        simp [hany]

/- ------------------------------------------------------------------
   The mask invariant of the supervised stage.
   ------------------------------------------------------------------ -/

theorem cellsRel_refl {α : Type} (cs : List (Option α)) :
    cellsRel cs cs (List.replicate cs.length false) := by
  refine ⟨rfl, List.length_replicate _ _, ?_⟩
  intro i hi
  constructor
  · intro v hv; exact hv
  · constructor
    · intro hbit
      rw [List.getElem?_replicate, if_pos hi] at hbit
      cases hbit
    · rintro ⟨h0, v, hv⟩
      rw [h0] at hv
      cases hv

theorem cellsRel_fill (cs₀ cs : List (Option ℚ)) (bs : List Bool) (p : Nat → ℚ)
    (h : cellsRel cs₀ cs bs) :
    cellsRel cs₀ (fillGapsAux p cs 0) (maskGaps cs bs) := by
  obtain ⟨hlen, hblen, hpt⟩ := h
  refine ⟨by rw [fillGapsAux_length, hlen],
          by rw [maskGaps_length cs bs (hlen.trans hblen.symm), hblen], ?_⟩
  intro i hi
  obtain ⟨hpres, hbit⟩ := hpt i hi
  have hics : i < cs.length := by rw [hlen]; exact hi
  obtain ⟨c, hc⟩ := getq_of_lt cs i hics
  cases c with
  | some w =>
    constructor
    · intro v hv
      exact fillGapsAux_some p cs 0 i v (hpres v hv)
    · rw [maskGaps_some cs bs i w hc, hbit]
      constructor
      · rintro ⟨h0, _⟩
        exact ⟨h0, w, fillGapsAux_some p cs 0 i w hc⟩
      · rintro ⟨h0, _⟩
        exact ⟨h0, w, hc⟩
  | none =>
    have h0 : cs₀[i]? = some none := by
      obtain ⟨c₀, hc₀⟩ := getq_of_lt cs₀ i hi
      cases c₀ with
      | none => exact hc₀
      | some q =>
        have := hpres q hc₀
        rw [hc] at this
        cases this
    constructor
    · intro v hv
      have := hpres v hv
      rw [hc] at this
      cases this
    · rw [maskGaps_none cs bs i hc (by rw [hblen]; exact hi)]
      obtain ⟨w, hw⟩ := fillGapsAux_isSome p cs 0 i hics
      constructor
      · intro _; exact ⟨h0, w, hw⟩
      · intro _; rfl

theorem initInv (df : Table) : AIInv df (df, initMask df) := by
  refine ⟨fun n => rfl, ?_, ?_⟩
  · intro n
    rw [getMaskBits_initMask]
    cases getColData df n <;> rfl
  · intro n cd₀ cd bs hdf₀ hget hbits
    rw [hdf₀] at hget
    injection hget with hget
    subst hget
    rw [getMaskBits_initMask, hdf₀] at hbits
    injection hbits with hbits
    subst hbits
    cases cd₀ with
    | num cs => exact cellsRel_refl cs
    | obj cs => exact cellsRel_refl cs

theorem updateTarget_inv (df₀ : Table) (st : Table × Mask) (target : String)
    (cells : List (Option ℚ)) (p : Nat → ℚ)
    (hcur : getColData st.1 target = some (ColData.num cells))
    (h : AIInv df₀ st) :
    AIInv df₀ (setColData st.1 target (ColData.num (fillGapsAux p cells 0)),
               markGapsInMask st.2 target cells) := by
  obtain ⟨h1, h2, h3⟩ := h
  refine ⟨?_, ?_, ?_⟩
  · intro n
    rw [getColData_set_isSome]
    exact h1 n
  · intro n
    rw [getMaskBits_mark_isSome]
    exact h2 n
  · intro n cd₀ cd bs hdf₀ hget hbits
    by_cases hn : n = target
    · subst hn
      have hset : getColData (setColData st.1 n (ColData.num (fillGapsAux p cells 0))) n
          = some (ColData.num (fillGapsAux p cells 0)) :=
        getColData_set_self st.1 n _ _ hcur
      rw [hset] at hget
      injection hget with hget
      subst hget
      have hbs₀ : ∃ bs₀, getMaskBits st.2 n = some bs₀ := by
        have := h2 n
        rw [hdf₀] at this
        cases hx : getMaskBits st.2 n with
        | none => rw [hx] at this; cases this
        | some bs₀ => exact ⟨bs₀, rfl⟩
      obtain ⟨bs₀, hbs₀⟩ := hbs₀
      rw [getMaskBits_mark_self st.2 n cells bs₀ hbs₀] at hbits
      injection hbits with hbits
      subst hbits
      have hrel := h3 n cd₀ (ColData.num cells) bs₀ hdf₀ hcur hbs₀
      cases cd₀ with
      | obj cs₀ => cases hrel
      | num cs₀ => exact cellsRel_fill cs₀ cells bs₀ p hrel
    · rw [getColData_set_other st.1 target n _ (fun hc => hn hc)] at hget
      rw [getMaskBits_mark_other st.2 target cells n (fun hc => hn hc)] at hbits
      exact h3 n cd₀ cd bs hdf₀ hget hbits

theorem fillTarget_inv (rf : RFModel) (nc cc : List String) (df₀ : Table)
    (st : Table × Mask) (target : String) (h : AIInv df₀ st) :
    AIInv df₀ (fillTarget rf nc cc st target) := by
  rcases fillTarget_cases rf nc cc st target with heq | ⟨cells, p, hcd, heq⟩
  · rw [heq]; exact h
  · rw [heq]; exact updateTarget_inv df₀ st target cells p hcd h

theorem foldFill_inv (rf : RFModel) (nc cc : List String) (df₀ : Table) :
    ∀ (l : List String) (st : Table × Mask), AIInv df₀ st →
      AIInv df₀ (l.foldl (fillTarget rf nc cc) st) := by
  intro l
  induction l with
  | nil => intro st h; exact h
  | cons tgt l2 ih =>
    intro st h
    rw [List.foldl_cons]
    exact ih _ (fillTarget_inv rf nc cc df₀ st tgt h)

theorem fill_missing_values_inv (fam : RFFamily) (df : Table) :
    AIInv df (fill_missing_values fam df) := by
  unfold fill_missing_values
  exact foldFill_inv _ _ _ df _ (df, initMask df) (initInv df)

/- ------------------------------------------------------------------
   Column-level behaviour of the whole per-target loop.
   ------------------------------------------------------------------ -/

theorem foldFill_keep (rf : RFModel) (nc cc : List String) (n : String)
    (cells : List (Option ℚ)) (hall : cells.any (fun c => c.isNone) = false) :
    ∀ (l : List String) (st : Table × Mask),
      getColData st.1 n = some (ColData.num cells) →
      getColData (l.foldl (fillTarget rf nc cc) st).1 n = some (ColData.num cells) := by
  intro l
  induction l with
  | nil => intro st h; exact h
  | cons tgt l2 ih =>
    intro st h
    rw [List.foldl_cons]
    by_cases ht : tgt = n
    · subst ht
      rw [fillTarget_skip rf nc cc st tgt cells h hall]
      exact ih st h
    · refine ih _ ?_
      rw [fillTarget_other rf nc cc st tgt n (fun hc => ht hc.symm)]
      exact h

theorem foldFill_median_small (rf : RFModel) (nc cc : List String) (n : String)
    (cells : List (Option ℚ)) (mv : ℚ)
    (hany : cells.any (fun c => c.isNone) = true)
    (h5 : (cells.filterMap id).length < 5)
    (hm : medianOf (cells.filterMap id) = some mv) :
    ∀ (l : List String) (st : Table × Mask), n ∈ l →
      getColData st.1 n = some (ColData.num cells) →
      getColData (l.foldl (fillTarget rf nc cc) st).1 n
        = some (ColData.num (fillGapsAux (fun _ => mv) cells 0)) := by
  intro l
  induction l with
  | nil => intro st hmem; cases hmem
  | cons tgt l2 ih =>
    intro st hmem hcol
    rw [List.foldl_cons]
    by_cases ht : tgt = n
    · subst ht
      rw [fillTarget_self_small rf nc cc st tgt cells mv hcol hany h5 hm]
      exact foldFill_keep rf nc cc tgt (fillGapsAux (fun _ => mv) cells 0)
        (fillGapsAux_any_false _ _ _) l2 _ (getColData_set_self st.1 tgt _ _ hcol)
    · have hmem2 : n ∈ l2 := by
        rcases List.mem_cons.mp hmem with hcase | hcase
        · exact absurd hcase.symm ht
        · exact hcase
      refine ih _ hmem2 ?_
      rw [fillTarget_other rf nc cc st tgt n (fun hc => ht hc.symm)]
      exact hcol

theorem foldFill_median_noModel (nc cc : List String) (n : String)
    (cells : List (Option ℚ)) (mv : ℚ)
    (hany : cells.any (fun c => c.isNone) = true)
    (hm : medianOf (cells.filterMap id) = some mv) :
    ∀ (l : List String) (st : Table × Mask), n ∈ l →
      getColData st.1 n = some (ColData.num cells) →
      getColData (l.foldl (fillTarget noModel nc cc) st).1 n
        = some (ColData.num (fillGapsAux (fun _ => mv) cells 0)) := by
  intro l
  induction l with
  | nil => intro st hmem; cases hmem
  | cons tgt l2 ih =>
    intro st hmem hcol
    rw [List.foldl_cons]
    by_cases ht : tgt = n
    · subst ht
      rw [fillTarget_self_noModel nc cc st tgt cells mv hcol hany hm]
      exact foldFill_keep noModel nc cc tgt (fillGapsAux (fun _ => mv) cells 0)
        (fillGapsAux_any_false _ _ _) l2 _ (getColData_set_self st.1 tgt _ _ hcol)
    · have hmem2 : n ∈ l2 := by
        rcases List.mem_cons.mp hmem with hcase | hcase
        · exact absurd hcase.symm ht
        · exact hcase
      refine ih _ hmem2 ?_
      rw [fillTarget_other noModel nc cc st tgt n (fun hc => ht hc.symm)]
      exact hcol

theorem foldFill_untouched (rf : RFModel) (nc cc : List String) (n : String)
    (cells : List (Option ℚ)) (hall : ∀ c ∈ cells, c = none)
    (h5 : (cells.filterMap id).length < 5) :
    ∀ (l : List String) (st : Table × Mask),
      getColData st.1 n = some (ColData.num cells) →
      getColData (l.foldl (fillTarget rf nc cc) st).1 n = some (ColData.num cells) := by
  intro l
  induction l with
  | nil => intro st h; exact h
  | cons tgt l2 ih =>
    intro st h
    rw [List.foldl_cons]
    by_cases ht : tgt = n
    · subst ht
      by_cases hany : cells.any (fun c => c.isNone) = true
      · have hmnone : medianOf (cells.filterMap id) = none := by
          rw [filterMap_id_nil_of_all_none cells hall]
          rfl
        rw [fillTarget_self_skipNoMedian rf nc cc st tgt cells h hany h5 hmnone]
        exact ih st h
      · simp only [Bool.not_eq_true] at hany
        rw [fillTarget_skip rf nc cc st tgt cells h hany]
        exact ih st h
    · refine ih _ ?_
      rw [fillTarget_other rf nc cc st tgt n (fun hc => ht hc.symm)]
      exact h

/- ------------------------------------------------------------------
   Lemmas about the domain-default stage (main.py lines 121-137).
   ------------------------------------------------------------------ -/

theorem getCell_num (t : Table) (n : String) (cells : List (Option ℚ)) (i : Nat)
    (h : getColData t n = some (ColData.num cells)) :
    getCell t n i = (cells[i]?).map (fun c => c.map Scalar.num) := by
  simp [getCell, h, ColData.cellAt]

theorem getCell_obj (t : Table) (n : String) (cells : List (Option String)) (i : Nat)
    (h : getColData t n = some (ColData.obj cells)) :
    getCell t n i = (cells[i]?).map (fun c => c.map Scalar.str) := by
  simp [getCell, h, ColData.cellAt]

theorem getCell_num_some (t : Table) (n : String) (cells : List (Option ℚ)) (i : Nat)
    (v : Scalar) (h : getColData t n = some (ColData.num cells))
    (hc : getCell t n i = some (some v)) :
    ∃ q, v = Scalar.num q ∧ cells[i]? = some (some q) := by
  rw [getCell_num t n cells i h] at hc
  cases hq : cells[i]? with
  | none => rw [hq] at hc; cases hc
  | some c =>
    rw [hq] at hc
    cases c with
    | none => simp at hc
    | some q =>
      have hc2 : some (some (Scalar.num q)) = some (some v) := hc
      injection hc2 with hc2
      injection hc2 with hc2
      exact ⟨q, hc2.symm, rfl⟩

theorem getCell_obj_some (t : Table) (n : String) (cells : List (Option String)) (i : Nat)
    (v : Scalar) (h : getColData t n = some (ColData.obj cells))
    (hc : getCell t n i = some (some v)) :
    ∃ s, v = Scalar.str s ∧ cells[i]? = some (some s) := by
  rw [getCell_obj t n cells i h] at hc
  cases hq : cells[i]? with
  | none => rw [hq] at hc; cases hc
  | some c =>
    rw [hq] at hc
    cases c with
    | none => simp at hc
    | some s =>
      have hc2 : some (some (Scalar.str s)) = some (some v) := hc
      injection hc2 with hc2
      injection hc2 with hc2
      exact ⟨s, hc2.symm, rfl⟩

theorem fillEnergyMan_self (d : Defaults) (t : Table) (em : List (Option ℚ))
    (hem : getColData t "energy_manufacturing" = some (ColData.num em))
    (hany : em.any (fun c => c.isNone) = true) :
    fillEnergyMan d t
      = some (setColData t "energy_manufacturing"
          (ColData.num (fillnaConst em (d.avg_energy_ext * (1 / 20))))) := by
  simp [fillEnergyMan, hem, hany]

theorem fillEnergyMan_noop (d : Defaults) (t : Table) (em : List (Option ℚ))
    (hem : getColData t "energy_manufacturing" = some (ColData.num em))
    (hany : em.any (fun c => c.isNone) = false) :
    fillEnergyMan d t = some t := by
  simp [fillEnergyMan, hem, hany]

theorem fillCo2Man_self (d : Defaults) (t : Table) (cm em : List (Option ℚ))
    (hcm : getColData t "co2_manufacturing" = some (ColData.num cm))
    (hany : cm.any (fun c => c.isNone) = true)
    (hem : getColData t "energy_manufacturing" = some (ColData.num em)) :
    fillCo2Man d t
      = some (setColData t "co2_manufacturing"
          (ColData.num (fillFromScaled cm em d.co2_kwh_man))) := by
  simp [fillCo2Man, hcm, hany, hem]

theorem fillCo2Man_noop (d : Defaults) (t : Table) (cm : List (Option ℚ))
    (hcm : getColData t "co2_manufacturing" = some (ColData.num cm))
    (hany : cm.any (fun c => c.isNone) = false) :
    fillCo2Man d t = some t := by
  simp [fillCo2Man, hcm, hany]

theorem fillTransportCost_shape (d : Defaults) (t t2 : Table)
    (h : fillTransportCost d t = some t2) :
    t2 = t ∨ ∃ tc tk, getColData t "transport_cost" = some (ColData.num tc) ∧
      getColData t "transport_km" = some (ColData.num tk) ∧
      t2 = setColData t "transport_cost"
             (ColData.num (fillFromScaled tc tk d.transport_cost_km)) := by
  unfold fillTransportCost at h
  split at h
  case _ tc htc =>
    split at h
    case isTrue hany =>
      split at h
      case _ tk htk =>
        injection h with h
        exact Or.inr ⟨tc, tk, htc, htk, h.symm⟩
      case _ => cases h
    case isFalse hany =>
      injection h with h
      exact Or.inl h.symm
  case _ => cases h

theorem fillEnergyMan_shape (d : Defaults) (t t2 : Table)
    (h : fillEnergyMan d t = some t2) :
    t2 = t ∨ ∃ em, getColData t "energy_manufacturing" = some (ColData.num em) ∧
      t2 = setColData t "energy_manufacturing"
             (ColData.num (fillnaConst em (d.avg_energy_ext * (1 / 20)))) := by
  unfold fillEnergyMan at h
  split at h
  case _ em hem =>
    injection h with h
    split at h
    case isTrue hany => exact Or.inr ⟨em, hem, h.symm⟩
    case isFalse hany => exact Or.inl h.symm
  case _ => cases h

theorem fillCo2Man_shape (d : Defaults) (t t2 : Table)
    (h : fillCo2Man d t = some t2) :
    t2 = t ∨ ∃ cm em, getColData t "co2_manufacturing" = some (ColData.num cm) ∧
      getColData t "energy_manufacturing" = some (ColData.num em) ∧
      t2 = setColData t "co2_manufacturing"
             (ColData.num (fillFromScaled cm em d.co2_kwh_man)) := by
  unfold fillCo2Man at h
  split at h
  case _ cm hcm =>
    split at h
    case isTrue hany =>
      split at h
      case _ em hem =>
        injection h with h
        exact Or.inr ⟨cm, em, hcm, hem, h.symm⟩
      case _ => cases h
    case isFalse hany =>
      injection h with h
      exact Or.inl h.symm
  case _ => cases h

theorem fillEnergyMan_pres (d : Defaults) (t t2 : Table)
    (h : fillEnergyMan d t = some t2) (n : String) (i : Nat) (v : Scalar)
    (hc : getCell t n i = some (some v)) : getCell t2 n i = some (some v) := by
  rcases fillEnergyMan_shape d t t2 h with heq | ⟨em, hem, heq⟩
  · rw [heq]; exact hc
  · subst heq
    by_cases hn : n = "energy_manufacturing"
    · subst hn
      obtain ⟨q, hv, hq⟩ := getCell_num_some t _ em i v hem hc
      subst hv
      rw [getCell_num _ _ (fillnaConst em (d.avg_energy_ext * (1 / 20))) i
            (getColData_set_self t _ _ _ hem)]
      rw [fillnaConst_get _ em i _ hq]
      rfl
    · rw [getCell, getColData_set_other t _ n _ hn]
      exact hc

theorem fillCo2Man_pres (d : Defaults) (t t2 : Table)
    (h : fillCo2Man d t = some t2) (n : String) (i : Nat) (v : Scalar)
    (hc : getCell t n i = some (some v)) : getCell t2 n i = some (some v) := by
  rcases fillCo2Man_shape d t t2 h with heq | ⟨cm, em, hcm, hem, heq⟩
  · rw [heq]; exact hc
  · subst heq
    by_cases hn : n = "co2_manufacturing"
    · subst hn
      obtain ⟨q, hv, hq⟩ := getCell_num_some t _ cm i v hcm hc
      subst hv
      rw [getCell_num _ _ (fillFromScaled cm em d.co2_kwh_man) i
            (getColData_set_self t _ _ _ hcm)]
      rw [fillFromScaled_some _ cm em i q hq]
      rfl
    · rw [getCell, getColData_set_other t _ n _ hn]
      exact hc

theorem fillTransportCost_pres (d : Defaults) (t t2 : Table)
    (h : fillTransportCost d t = some t2) (n : String) (i : Nat) (v : Scalar)
    (hc : getCell t n i = some (some v)) : getCell t2 n i = some (some v) := by
  rcases fillTransportCost_shape d t t2 h with heq | ⟨tc, tk, htc, htk, heq⟩
  · rw [heq]; exact hc
  · subst heq
    by_cases hn : n = "transport_cost"
    · subst hn
      obtain ⟨q, hv, hq⟩ := getCell_num_some t _ tc i v htc hc
      subst hv
      rw [getCell_num _ _ (fillFromScaled tc tk d.transport_cost_km) i
            (getColData_set_self t _ _ _ htc)]
      rw [fillFromScaled_some _ tc tk i q hq]
      rfl
    · rw [getCell, getColData_set_other t _ n _ hn]
      exact hc

theorem domainFill_bind (d : Defaults) (t t3 : Table) (h : domainFill d t = some t3) :
    ∃ t1 t2, fillEnergyMan d t = some t1 ∧ fillCo2Man d t1 = some t2 ∧
      fillTransportCost d t2 = some t3 := by
  unfold domainFill at h
  cases h1 : fillEnergyMan d t with
  | none => rw [h1] at h; simp at h
  | some t1 =>
    rw [h1] at h
    have h2a : (fillCo2Man d t1).bind (fillTransportCost d) = some t3 := h
    cases h2 : fillCo2Man d t1 with
    | none => rw [h2] at h2a; simp at h2a
    | some t2 =>
      rw [h2] at h2a
      exact ⟨t1, t2, rfl, h2, h2a⟩

theorem domainFill_pres (d : Defaults) (t t3 : Table)
    (h : domainFill d t = some t3) (n : String) (i : Nat) (v : Scalar)
    (hc : getCell t n i = some (some v)) : getCell t3 n i = some (some v) := by
  obtain ⟨t1, t2, h1, h2, h3⟩ := domainFill_bind d t t3 h
  exact fillTransportCost_pres d t2 t3 h3 n i v
    (fillCo2Man_pres d t1 t2 h2 n i v (fillEnergyMan_pres d t t1 h1 n i v hc))

theorem fillEnergyMan_other (d : Defaults) (t t2 : Table)
    (h : fillEnergyMan d t = some t2) (n : String) (hn : n ≠ "energy_manufacturing") :
    getColData t2 n = getColData t n := by
  rcases fillEnergyMan_shape d t t2 h with heq | ⟨em, hem, heq⟩
  · rw [heq]
  · subst heq; exact getColData_set_other t _ n _ hn

theorem fillCo2Man_other (d : Defaults) (t t2 : Table)
    (h : fillCo2Man d t = some t2) (n : String) (hn : n ≠ "co2_manufacturing") :
    getColData t2 n = getColData t n := by
  rcases fillCo2Man_shape d t t2 h with heq | ⟨cm, em, hcm, hem, heq⟩
  · rw [heq]
  · subst heq; exact getColData_set_other t _ n _ hn

theorem fillTransportCost_other (d : Defaults) (t t2 : Table)
    (h : fillTransportCost d t = some t2) (n : String) (hn : n ≠ "transport_cost") :
    getColData t2 n = getColData t n := by
  rcases fillTransportCost_shape d t t2 h with heq | ⟨tc, tk, htc, htk, heq⟩
  · rw [heq]
  · subst heq; exact getColData_set_other t _ n _ hn

theorem domainFill_other (d : Defaults) (t t3 : Table)
    (h : domainFill d t = some t3) (n : String)
    (h1 : n ≠ "energy_manufacturing") (h2 : n ≠ "co2_manufacturing")
    (h3 : n ≠ "transport_cost") :
    getColData t3 n = getColData t n := by
  obtain ⟨t1, t2, he, hc, ht⟩ := domainFill_bind d t t3 h
  rw [fillTransportCost_other d t2 t3 ht n h3, fillCo2Man_other d t1 t2 hc n h2,
      fillEnergyMan_other d t t1 he n h1]

/- ------------------------------------------------------------------
   Lemmas about the mean/mode last-resort stage (main.py lines 139-150).
   ------------------------------------------------------------------ -/

theorem lrColData_num_fill (cells : List (Option ℚ))
    (hany : cells.any (fun c => c.isNone) = true) :
    lrColData (ColData.num cells)
      = ColData.num (fillnaConst cells ((meanOf (cells.filterMap id)).getD 0)) := by
  show (if cells.any (fun c => c.isNone) = true then
          ColData.num (fillnaConst cells ((meanOf (cells.filterMap id)).getD 0))
        else ColData.num cells) = _
  rw [if_pos hany]

theorem lrColData_num_skip (cells : List (Option ℚ))
    (hany : cells.any (fun c => c.isNone) = false) :
    lrColData (ColData.num cells) = ColData.num cells := by
  show (if cells.any (fun c => c.isNone) = true then
          ColData.num (fillnaConst cells ((meanOf (cells.filterMap id)).getD 0))
        else ColData.num cells) = _
  rw [if_neg (by simp [hany])]

theorem lrColData_obj_fill (cells : List (Option String))
    (hany : cells.any (fun c => c.isNone) = true) :
    lrColData (ColData.obj cells)
      = ColData.obj (fillnaConst cells ((modeOf (cells.filterMap id)).getD "unknown")) := by
  show (if cells.any (fun c => c.isNone) = true then
          ColData.obj (fillnaConst cells ((modeOf (cells.filterMap id)).getD "unknown"))
        else ColData.obj cells) = _
  rw [if_pos hany]

theorem lrColData_obj_skip (cells : List (Option String))
    (hany : cells.any (fun c => c.isNone) = false) :
    lrColData (ColData.obj cells) = ColData.obj cells := by
  show (if cells.any (fun c => c.isNone) = true then
          ColData.obj (fillnaConst cells ((modeOf (cells.filterMap id)).getD "unknown"))
        else ColData.obj cells) = _
  rw [if_neg (by simp [hany])]

theorem lrColData_pres (cd : ColData) (i : Nat) (v : Scalar)
    (hc : cd.cellAt i = some (some v)) : (lrColData cd).cellAt i = some (some v) := by
  cases cd with
  | num cells =>
    have hc2 : (cells[i]?).map (fun c => c.map Scalar.num) = some (some v) := hc
    cases hq : cells[i]? with
    | none => rw [hq] at hc2; cases hc2
    | some c =>
      rw [hq] at hc2
      cases c with
      | none =>
        have hc3 : some (none : Option Scalar) = some (some v) := hc2
        injection hc3 with hc3
        cases hc3
      | some q =>
        have hc3 : some (some (Scalar.num q)) = some (some v) := hc2
        injection hc3 with hc3
        injection hc3 with hc3
        subst hc3
        cases hany : cells.any (fun c => c.isNone) with
        | true =>
          rw [lrColData_num_fill cells hany]
          show ((fillnaConst cells ((meanOf (cells.filterMap id)).getD 0))[i]?).map
              (fun c => c.map Scalar.num) = _
          rw [fillnaConst_get _ cells i _ hq]
          rfl
        | false =>
          rw [lrColData_num_skip cells hany]
          exact hc
  | obj cells =>
    have hc2 : (cells[i]?).map (fun c => c.map Scalar.str) = some (some v) := hc
    cases hq : cells[i]? with
    | none => rw [hq] at hc2; cases hc2
    | some c =>
      rw [hq] at hc2
      cases c with
      | none =>
        have hc3 : some (none : Option Scalar) = some (some v) := hc2
        injection hc3 with hc3
        cases hc3
      | some s =>
        have hc3 : some (some (Scalar.str s)) = some (some v) := hc2
        injection hc3 with hc3
        injection hc3 with hc3
        subst hc3
        cases hany : cells.any (fun c => c.isNone) with
        | true =>
          rw [lrColData_obj_fill cells hany]
          show ((fillnaConst cells ((modeOf (cells.filterMap id)).getD "unknown"))[i]?).map
              (fun c => c.map Scalar.str) = _
          rw [fillnaConst_get _ cells i _ hq]
          rfl
        | false =>
          rw [lrColData_obj_skip cells hany]
          exact hc

theorem lastResort_pres (t : Table) (n : String) (i : Nat) (v : Scalar)
    (hc : getCell t n i = some (some v)) :
    getCell (lastResortFill t) n i = some (some v) := by
  cases hcd : getColData t n with
  | none => rw [getCell, hcd] at hc; cases hc
  | some cd =>
    rw [getCell, hcd] at hc
    have hc2 : cd.cellAt i = some (some v) := hc
    have hcol : getColData (lastResortFill t) n = some (lrColData cd) := by
      rw [getColData_lastResort, hcd]
      rfl
    rw [getCell, hcol]
    exact lrColData_pres cd i v hc2

theorem lastResort_num_cell (t : Table) (n : String) (cells : List (Option ℚ))
    (i : Nat) (c : Option ℚ)
    (h : getColData t n = some (ColData.num cells))
    (hany : cells.any (fun c => c.isNone) = true)
    (hc : cells[i]? = some c) :
    getCell (lastResortFill t) n i
      = some (some (Scalar.num (c.getD ((meanOf (cells.filterMap id)).getD 0)))) := by
  have hcol : getColData (lastResortFill t) n
      = some (ColData.num (fillnaConst cells ((meanOf (cells.filterMap id)).getD 0))) := by
    rw [getColData_lastResort, h]
    show some (lrColData (ColData.num cells)) = _
    rw [lrColData_num_fill cells hany]
  rw [getCell_num _ n _ i hcol, fillnaConst_get _ cells i _ hc]
  rfl

theorem lastResort_obj_cell (t : Table) (n : String) (cells : List (Option String))
    (i : Nat) (c : Option String)
    (h : getColData t n = some (ColData.obj cells))
    (hany : cells.any (fun c => c.isNone) = true)
    (hc : cells[i]? = some c) :
    getCell (lastResortFill t) n i
      = some (some (Scalar.str (c.getD ((modeOf (cells.filterMap id)).getD "unknown")))) := by
  have hcol : getColData (lastResortFill t) n
      = some (ColData.obj (fillnaConst cells ((modeOf (cells.filterMap id)).getD "unknown"))) := by
    rw [getColData_lastResort, h]
    show some (lrColData (ColData.obj cells)) = _
    rw [lrColData_obj_fill cells hany]
  rw [getCell_obj _ n _ i hcol, fillnaConst_get _ cells i _ hc]
  rfl

/- ------------------------------------------------------------------
   Bridging lemmas between the invariant and cell-level statements.
   ------------------------------------------------------------------ -/

theorem getq_mem {α : Type} : ∀ (l : List α) (i : Nat) (a : α), l[i]? = some a → a ∈ l := by
  intro l
  induction l with
  | nil => intro i a h; simp at h
  | cons x xs ih =>
    intro i a h
    cases i with
    | zero =>
      simp only [List.getElem?_cons_zero, Option.some.injEq] at h
      subst h
      exact List.mem_cons_self x xs
    | succ j =>
      simp only [List.getElem?_cons_succ] at h
      exact List.mem_cons_of_mem x (ih j a h)

theorem cellAt_isLt (cd : ColData) (i : Nat) (c : Option Scalar)
    (h : cd.cellAt i = some c) : i < cd.length := by
  cases cd with
  | num cells =>
    have h2 : (cells[i]?).map (fun x => x.map Scalar.num) = some c := h
    cases hq : cells[i]? with
    | none => rw [hq] at h2; cases h2
    | some x => exact getq_isLt cells i x hq
  | obj cells =>
    have h2 : (cells[i]?).map (fun x => x.map Scalar.str) = some c := h
    cases hq : cells[i]? with
    | none => rw [hq] at h2; cases h2
    | some x => exact getq_isLt cells i x hq

theorem fill_pres (fam : RFFamily) (df : Table) (n : String) (i : Nat) (v : Scalar)
    (hc : getCell df n i = some (some v)) :
    getCell (fill_missing_values fam df).1 n i = some (some v) := by
  obtain ⟨h1, h2, h3⟩ := fill_missing_values_inv fam df
  cases hcd : getColData df n with
  | none => rw [getCell, hcd] at hc; cases hc
  | some cd₀ =>
    have hcs : ∃ cd, getColData (fill_missing_values fam df).1 n = some cd := by
      have hh := h1 n
      rw [hcd] at hh
      cases hx : getColData (fill_missing_values fam df).1 n with
      | none => rw [hx] at hh; cases hh
      | some cd => exact ⟨cd, rfl⟩
    obtain ⟨cd, hcdF⟩ := hcs
    have hbs : ∃ bs, getMaskBits (fill_missing_values fam df).2 n = some bs := by
      have hh := h2 n
      rw [hcd] at hh
      cases hx : getMaskBits (fill_missing_values fam df).2 n with
      | none => rw [hx] at hh; cases hh
      | some bs => exact ⟨bs, rfl⟩
    obtain ⟨bs, hbsF⟩ := hbs
    have hrel := h3 n cd₀ cd bs hcd hcdF hbsF
    cases cd₀ with
    | num cs₀ =>
      cases cd with
      | obj _ => cases hrel
      | num cs =>
        obtain ⟨q, hv, hq⟩ := getCell_num_some df n cs₀ i v hcd hc
        subst hv
        obtain ⟨hlen, hblen, hpt⟩ := hrel
        obtain ⟨hpres, _⟩ := hpt i (getq_isLt cs₀ i _ hq)
        rw [getCell_num _ n cs i hcdF, hpres q hq]
        rfl
    | obj cs₀ =>
      cases cd with
      | num _ => cases hrel
      | obj cs =>
        obtain ⟨s, hv, hq⟩ := getCell_obj_some df n cs₀ i v hcd hc
        subst hv
        obtain ⟨hlen, hblen, hpt⟩ := hrel
        obtain ⟨hpres, _⟩ := hpt i (getq_isLt cs₀ i _ hq)
        rw [getCell_obj _ n cs i hcdF, hpres s hq]
        rfl

theorem fill_mask_sound (fam : RFFamily) (df : Table) (n : String) (i : Nat)
    (c₀ : Option Scalar) (hc : getCell df n i = some c₀) :
    (∃ b, maskAt (fill_missing_values fam df).2 n i = some b) ∧
    (maskAt (fill_missing_values fam df).2 n i = some true ↔
      (c₀ = none ∧ ∃ v, getCell (fill_missing_values fam df).1 n i = some (some v))) := by
  obtain ⟨h1, h2, h3⟩ := fill_missing_values_inv fam df
  cases hcd : getColData df n with
  | none => rw [getCell, hcd] at hc; cases hc
  | some cd₀ =>
    rw [getCell, hcd] at hc
    have hcell : cd₀.cellAt i = some c₀ := hc
    have hi : i < cd₀.length := cellAt_isLt cd₀ i c₀ hcell
    have hcs : ∃ cd, getColData (fill_missing_values fam df).1 n = some cd := by
      have hh := h1 n
      rw [hcd] at hh
      cases hx : getColData (fill_missing_values fam df).1 n with
      | none => rw [hx] at hh; cases hh
      | some cd => exact ⟨cd, rfl⟩
    obtain ⟨cd, hcdF⟩ := hcs
    have hbs : ∃ bs, getMaskBits (fill_missing_values fam df).2 n = some bs := by
      have hh := h2 n
      rw [hcd] at hh
      cases hx : getMaskBits (fill_missing_values fam df).2 n with
      | none => rw [hx] at hh; cases hh
      | some bs => exact ⟨bs, rfl⟩
    obtain ⟨bs, hbsF⟩ := hbs
    have hrel := h3 n cd₀ cd bs hcd hcdF hbsF
    have hmaskAt : maskAt (fill_missing_values fam df).2 n i = bs[i]? := by
      rw [maskAt, hbsF]
      rfl
    cases cd₀ with
    | num cs₀ =>
      cases cd with
      | obj _ => cases hrel
      | num cs =>
        obtain ⟨hlen, hblen, hpt⟩ := hrel
        obtain ⟨hpres, hbit⟩ := hpt i hi
        constructor
        · obtain ⟨b, hb⟩ := getq_of_lt bs i (by rw [hblen]; exact hi)
          exact ⟨b, by rw [hmaskAt, hb]⟩
        · rw [hmaskAt, hbit]
          obtain ⟨c, hq⟩ := getq_of_lt cs₀ i hi
          have hc₀ : c₀ = c.map Scalar.num := by
            have h4 : (cs₀[i]?).map (fun x => x.map Scalar.num) = some c₀ := hcell
            rw [hq] at h4
            injection h4 with h4
            exact h4.symm
          constructor
          · rintro ⟨h0, q, hqq⟩
            rw [hq] at h0
            injection h0 with h0
            refine ⟨by rw [hc₀, h0]; rfl, Scalar.num q, ?_⟩
            rw [getCell_num _ n cs i hcdF, hqq]
            rfl
          · rintro ⟨h0, v, hv⟩
            have hcnone : c = none := by
              rw [hc₀] at h0
              cases c with
              | none => rfl
              | some q => exact Option.noConfusion h0
            constructor
            · rw [hq, hcnone]
            · obtain ⟨q, hvq, hqq⟩ := getCell_num_some _ n cs i v hcdF hv
              exact ⟨q, hqq⟩
    | obj cs₀ =>
      cases cd with
      | num _ => cases hrel
      | obj cs =>
        obtain ⟨hlen, hblen, hpt⟩ := hrel
        obtain ⟨hpres, hbit⟩ := hpt i hi
        constructor
        · obtain ⟨b, hb⟩ := getq_of_lt bs i (by rw [hblen]; exact hi)
          exact ⟨b, by rw [hmaskAt, hb]⟩
        · rw [hmaskAt, hbit]
          obtain ⟨c, hq⟩ := getq_of_lt cs₀ i hi
          have hc₀ : c₀ = c.map Scalar.str := by
            have h4 : (cs₀[i]?).map (fun x => x.map Scalar.str) = some c₀ := hcell
            rw [hq] at h4
            injection h4 with h4
            exact h4.symm
          constructor
          · rintro ⟨h0, s, hqq⟩
            rw [hq] at h0
            injection h0 with h0
            refine ⟨by rw [hc₀, h0]; rfl, Scalar.str s, ?_⟩
            rw [getCell_obj _ n cs i hcdF, hqq]
            rfl
          · rintro ⟨h0, v, hv⟩
            have hcnone : c = none := by
              rw [hc₀] at h0
              cases c with
              | none => rfl
              | some s => exact Option.noConfusion h0
            constructor
            · rw [hq, hcnone]
            · obtain ⟨s, hvq, hqq⟩ := getCell_obj_some _ n cs i v hcdF hv
              exact ⟨s, hqq⟩

/- ------------------------------------------------------------------
   Claims.
   ------------------------------------------------------------------ -/

/-- Claim C1, counterexample.  The claim prescribes the stage order
classification → defaults → rule-based derivation → supervised
imputation → fallback.  On `tOrder` (six rows, `co2_manufacturing`
with five observed values and one gap, `energy_manufacturing` fully
observed at 100) the code fills the gap in the supervised stage first
(median 1 after the model oracle fails), so the derivation rule never
touches it; under the spec-claimed order the derivation rule would
run first and set it to `100 * 0.35 = 35`.  The two pipelines
disagree, refuting the claimed ordering. -/
theorem c1_pipeline_order_counterexample :
    (run_hybrid_imputation failFam resolvedSystemDefaults tOrder).bind
        (fun o => getCell o "co2_manufacturing" 5) = some (some (Scalar.num 1)) ∧
    (specOrderPipeline failFam resolvedSystemDefaults tOrder).bind
        (fun o => getCell o "co2_manufacturing" 5) = some (some (Scalar.num 35)) ∧
    run_hybrid_imputation failFam resolvedSystemDefaults tOrder
      ≠ specOrderPipeline failFam resolvedSystemDefaults tOrder := by
  with_unfolding_all decide

/-- Claim C1, amended.  The pipeline applies its stages in the fixed
order: column classification, then per-field supervised imputation,
then rule-based derivation with the resolved defaults, then the
mean/mode last resort (default resolution happens in the caller
before the pipeline runs); each later stage touches only cells every
earlier stage left absent, and no stage is reordered or retried. -/
theorem c1_pipeline_order_amended (fam : RFFamily) (d : Defaults) (t : Table) :
    run_hybrid_imputation fam d t
      = (domainFill d (fill_missing_values fam (coerceNumeric (lowercaseCols t))).1).map
          lastResortFill ∧
    (∀ n i v, getCell (coerceNumeric (lowercaseCols t)) n i = some (some v) →
      getCell (fill_missing_values fam (coerceNumeric (lowercaseCols t))).1 n i
        = some (some v)) ∧
    (∀ t1 t2 n i v, domainFill d t1 = some t2 → getCell t1 n i = some (some v) →
      getCell t2 n i = some (some v)) ∧
    (∀ t2 n i v, getCell t2 n i = some (some v) →
      getCell (lastResortFill t2) n i = some (some v)) := by
  refine ⟨rfl, ?_, ?_, ?_⟩
  · intro n i v hc
    exact fill_pres fam (coerceNumeric (lowercaseCols t)) n i v hc
  · intro t1 t2 n i v hdf hc
    exact domainFill_pres d t1 t2 hdf n i v hc
  · intro t2 n i v hc
    exact lastResort_pres t2 n i v hc

/-- Claim C1 amended, witness at a concrete table: a present cell
survives the supervised stage unchanged. -/
theorem c1_pipeline_order_amended_witness :
    getCell (coerceNumeric (lowercaseCols tC4w)) "material_cost" 0
      = some (some (Scalar.num 7)) ∧
    getCell (fill_missing_values failFam (coerceNumeric (lowercaseCols tC4w))).1
      "material_cost" 0 = some (some (Scalar.num 7)) :=
  ⟨by with_unfolding_all decide,
   (c1_pipeline_order_amended failFam resolvedSystemDefaults tC4w).2.1 "material_cost" 0
     (Scalar.num 7) (by with_unfolding_all decide)⟩

/-- Claim C2, counterexample.  The top-level call returns no mask at
all (its embedded type is `Option Table`; main.py line 116 discards
the AI mask), and the only mask produced anywhere — the supervised
stage mask — is `false` at a cell that the pipeline fills: on `tEM`
the absent `energy_manufacturing` cell is filled with 10 by the
domain-default stage, yet the supervised-stage mask reads `false`
there.  So "every cell filled by any strategy is marked" fails for the
top-level call. -/
theorem c2_mask_pair_counterexample :
    getCell tEM "energy_manufacturing" 0 = some none ∧
    (run_hybrid_imputation failFam resolvedSystemDefaults tEM).bind
        (fun o => getCell o "energy_manufacturing" 0) = some (some (Scalar.num 10)) ∧
    maskAt (fill_missing_values failFam (coerceNumeric (lowercaseCols tEM))).2
        "energy_manufacturing" 0 = some false := by
  with_unfolding_all decide

/-- Claim C2, amended.  The supervised stage `fill_missing_values`
does return a `(table, mask)` pair with a sound mask: the mask stays
shaped like the table, and reads `true` exactly at cells that were
absent in its input and are present in its output.  The top-level
orchestrator, however, discards this mask and returns only the filled
table, so cells filled by the later stages are not marked anywhere. -/
theorem c2_mask_soundness_amended (fam : RFFamily) (df : Table) (n : String) (i : Nat)
    (c₀ : Option Scalar) (hc : getCell df n i = some c₀) :
    (∃ b, maskAt (fill_missing_values fam df).2 n i = some b) ∧
    (maskAt (fill_missing_values fam df).2 n i = some true ↔
      (c₀ = none ∧ ∃ v, getCell (fill_missing_values fam df).1 n i = some (some v))) :=
  fill_mask_sound fam df n i c₀ hc

/-- Claim C2 amended, witness at a concrete table with one absent
cell that the supervised stage cannot fill. -/
theorem c2_mask_soundness_amended_witness :
    (∃ b, maskAt (fill_missing_values failFam [⟨"a", ColData.num [none]⟩]).2 "a" 0
        = some b) ∧
    (maskAt (fill_missing_values failFam [⟨"a", ColData.num [none]⟩]).2 "a" 0
        = some true ↔
      ((none : Option Scalar) = none ∧
        ∃ v, getCell (fill_missing_values failFam [⟨"a", ColData.num [none]⟩]).1 "a" 0
          = some (some v))) :=
  c2_mask_soundness_amended failFam [⟨"a", ColData.num [none]⟩] "a" 0 none
    (by with_unfolding_all decide)

/-- Claim C3, counterexample.  The last-resort stage fills numeric
gaps with the MEAN, not the median: on `tFunc` the excluded field
`functional_unit_kg` (untouched by the supervised and rule stages)
has observed values 0, 0, 3, whose median is 0 but whose mean is 1;
the pipeline fills its gap with 1. -/
theorem c3_fallback_median_counterexample :
    (run_hybrid_imputation failFam resolvedSystemDefaults tFunc).bind
        (fun o => getCell o "functional_unit_kg" 3) = some (some (Scalar.num 1)) ∧
    medianOf [0, 0, 3] = some 0 ∧ meanOf [0, 0, 3] = some 1 ∧
    Scalar.num 1 ≠ Scalar.num 0 := by
  with_unfolding_all decide

/-- Claim C3, amended.  The last-resort stage fills the gaps of a
numeric field with the MEAN of its currently-observed values (0 when
none are observed), and the gaps of a categorical field with its most
frequent currently-observed value ("unknown" when none are observed). -/
theorem c3_fallback_mean_mode_amended (t : Table) (n : String) :
    (∀ cells i c, getColData t n = some (ColData.num cells) →
       cells.any (fun x => x.isNone) = true → cells[i]? = some c →
       getCell (lastResortFill t) n i
         = some (some (Scalar.num (c.getD ((meanOf (cells.filterMap id)).getD 0))))) ∧
    (∀ cells i c, getColData t n = some (ColData.obj cells) →
       cells.any (fun x => x.isNone) = true → cells[i]? = some c →
       getCell (lastResortFill t) n i
         = some (some (Scalar.str (c.getD ((modeOf (cells.filterMap id)).getD "unknown"))))) :=
  ⟨fun cells i c h hany hc => lastResort_num_cell t n cells i c h hany hc,
   fun cells i c h hany hc => lastResort_obj_cell t n cells i c h hany hc⟩

/-- Claim C3 amended, witness: the numeric gap gets the mean 1 of
observed values 0, 0, 3, and the categorical gap gets the mode
"road" of six "road" vs two "rail" — the scenario given in the spec. -/
theorem c3_fallback_mean_mode_amended_witness :
    getCell (lastResortFill tLRw) "a" 3 = some (some (Scalar.num 1)) ∧
    getCell (lastResortFill tLRw) "b" 8 = some (some (Scalar.str "road")) := by
  constructor
  · have h := (c3_fallback_mean_mode_amended tLRw "a").1
      [some 0, some 0, some 3, none] 3 none
      (by with_unfolding_all decide) (by with_unfolding_all decide)
      (by with_unfolding_all decide)
    exact h.trans (by with_unfolding_all decide)
  · have h := (c3_fallback_mean_mode_amended tLRw "b").2
      [some "road", some "road", some "road", some "rail", some "road",
       some "rail", some "road", some "road", none, none] 8 none
      (by with_unfolding_all decide) (by with_unfolding_all decide)
      (by with_unfolding_all decide)
    exact h.trans (by with_unfolding_all decide)

/-- Claim C4, counterexample.  A present but numerically unparseable
cell is NOT preserved: the string "abc" in `weight_kg` is coerced to
absent by `pd.to_numeric` with coercing errors (main.py line 110)
and later refilled — here with 0 by the last-resort stage. -/
theorem c4_nondestructive_counterexample :
    getCell tAbc "weight_kg" 0 = some (some (Scalar.str "abc")) ∧
    (run_hybrid_imputation failFam resolvedSystemDefaults tAbc).bind
        (fun o => getCell o "weight_kg" 0) = some (some (Scalar.num 0)) ∧
    Scalar.str "abc" ≠ Scalar.num 0 := by
  with_unfolding_all decide

/-- Claim C4, amended.  Every cell still present after the
lowercasing and numeric-coercion normalization (in particular every
numeric-valued cell and every cell of the non-coerced columns) keeps
its value through all three imputation stages, and the supervised
mask of the supervised stage is `false` there; only present values that fail numeric
parsing are nulled by the coercion and may be refilled. -/
theorem c4_nondestructive_amended (fam : RFFamily) (d : Defaults) (t : Table)
    (n : String) (i : Nat) (v : Scalar)
    (hc : getCell (coerceNumeric (lowercaseCols t)) n i = some (some v))
    (hs : (run_hybrid_imputation fam d t).isSome) :
    (run_hybrid_imputation fam d t).bind (fun o => getCell o n i) = some (some v) ∧
    maskAt (fill_missing_values fam (coerceNumeric (lowercaseCols t))).2 n i
      = some false := by
  have hfill := fill_pres fam (coerceNumeric (lowercaseCols t)) n i v hc
  constructor
  · have hrun : run_hybrid_imputation fam d t
        = (domainFill d (fill_missing_values fam (coerceNumeric (lowercaseCols t))).1).map
            lastResortFill := rfl
    rw [hrun] at hs ⊢
    cases hdf : domainFill d (fill_missing_values fam (coerceNumeric (lowercaseCols t))).1 with
    | none => rw [hdf] at hs; simp at hs
    | some t2 =>
      show getCell (lastResortFill t2) n i = some (some v)
      exact lastResort_pres t2 n i v (domainFill_pres d _ t2 hdf n i v hfill)
  · obtain ⟨⟨b, hb⟩, hiff⟩ :=
      fill_mask_sound fam (coerceNumeric (lowercaseCols t)) n i (some v) hc
    cases b with
    | true =>
      obtain ⟨h0, _⟩ := hiff.mp hb
      cases h0
    | false => exact hb

/-- Claim C4 amended, witness: the present `material_cost` value 7
survives the whole pipeline and its mask bit is `false`. -/
theorem c4_nondestructive_amended_witness :
    (run_hybrid_imputation failFam resolvedSystemDefaults tC4w).bind
        (fun o => getCell o "material_cost" 0) = some (some (Scalar.num 7)) ∧
    maskAt (fill_missing_values failFam (coerceNumeric (lowercaseCols tC4w))).2
        "material_cost" 0 = some false :=
  c4_nondestructive_amended failFam resolvedSystemDefaults tC4w "material_cost" 0
    (Scalar.num 7) (by with_unfolding_all decide) (by with_unfolding_all decide)

/-- Claim C5, confirmed.  A numeric target field with at least one
missing value, at least one observed value and fewer than 5 observed
values is filled with the median of its observed values, and this
holds for EVERY model family — the model oracle is never consulted
for such a field, i.e. no model is trained. -/
theorem c5_small_sample_median (fam : RFFamily) (df : Table) (n : String)
    (cells : List (Option ℚ))
    (hmem : n ∈ aiTargets df)
    (hcol : getColData df n = some (ColData.num cells))
    (hgap : cells.any (fun c => c.isNone) = true)
    (hobs : 0 < (cells.filterMap id).length)
    (hobs5 : (cells.filterMap id).length < 5) :
    ∃ m, medianOf (cells.filterMap id) = some m ∧
      ∀ i c, cells[i]? = some c →
        getCell (fill_missing_values fam df).1 n i
          = some (some (Scalar.num (c.getD m))) := by
  obtain ⟨m, hm⟩ := medianOf_isSome (cells.filterMap id)
    (by intro hnil; rw [hnil] at hobs; cases hobs)
  refine ⟨m, hm, ?_⟩
  intro i c hc
  have hfold : getColData (fill_missing_values fam df).1 n
      = some (ColData.num (fillGapsAux (fun _ => m) cells 0)) :=
    foldFill_median_small (fam N_ESTIMATORS RANDOM_STATE) (aiTargets df)
      (objColNames df) n cells m hgap hobs5 hm (aiTargets df) (df, initMask df)
      hmem hcol
  rw [getCell_num _ n _ i hfold, fillGapsAux_const m cells 0 i c hc]
  rfl

/-- Claim C5, witness: four observed values 1, 2, 3, 4 and one gap;
the gap receives the median 5/2. -/
theorem c5_small_sample_median_witness :
    ∃ m, medianOf (([some 1, some 2, some 3, some 4, none] :
            List (Option ℚ)).filterMap id) = some m ∧
      ∀ i c, ([some 1, some 2, some 3, some 4, none] : List (Option ℚ))[i]? = some c →
        getCell (fill_missing_values failFam tC5w).1 "weight_kg" i
          = some (some (Scalar.num (c.getD m))) :=
  c5_small_sample_median failFam tC5w "weight_kg" [some 1, some 2, some 3, some 4, none]
    (by with_unfolding_all decide) (by with_unfolding_all decide)
    (by with_unfolding_all decide) (by with_unfolding_all decide)
    (by with_unfolding_all decide)

/-- Claim C6, confirmed (under the modelling of the RandomForest as a
deterministic function of its training inputs and the fixed
`(N_ESTIMATORS, RANDOM_STATE)` pair, which is the documented sklearn
behaviour for a fixed `random_state`).  Two runs of the engine on
identical tables and identical resolved defaults produce identical
results, both for the whole pipeline and for the supervised stage. -/
theorem c6_determinism (fam : RFFamily) (d1 d2 : Defaults) (t1 t2 : Table)
    (ht : t1 = t2) (hd : d1 = d2) :
    run_hybrid_imputation fam d1 t1 = run_hybrid_imputation fam d2 t2 ∧
    fill_missing_values fam (coerceNumeric (lowercaseCols t1))
      = fill_missing_values fam (coerceNumeric (lowercaseCols t2)) := by
  subst ht
  subst hd
  exact ⟨rfl, rfl⟩

/-- Claim C6, witness at a concrete table. -/
theorem c6_determinism_witness :
    run_hybrid_imputation failFam resolvedSystemDefaults tEM
      = run_hybrid_imputation failFam resolvedSystemDefaults tEM ∧
    fill_missing_values failFam (coerceNumeric (lowercaseCols tEM))
      = fill_missing_values failFam (coerceNumeric (lowercaseCols tEM)) :=
  c6_determinism failFam resolvedSystemDefaults resolvedSystemDefaults tEM tEM rfl rfl

/-- Claim C7, counterexample.  A wholly-absent numeric column is NOT
left absent: the `fillna(... else 0)` of the last-resort stage (main.py
line 146) coerces it to 0.  On `tW7` the fully absent `weight_kg`
comes back as 0. -/
theorem c7_fully_absent_counterexample :
    getColData tW7 "weight_kg" = some (ColData.num [none]) ∧
    (run_hybrid_imputation failFam resolvedSystemDefaults tW7).bind
        (fun o => getCell o "weight_kg" 0) = some (some (Scalar.num 0)) := by
  with_unfolding_all decide

/-- Claim C7, amended.  A wholly-absent numeric column (other than
the three columns assigned by the domain-default rules) is left
absent by the supervised stage, but the last-resort stage then fills
every one of its cells with 0 (its mean is NaN, so the `else 0`
branch applies); it does not remain absent in the output. -/
theorem c7_fully_absent_amended (fam : RFFamily) (d : Defaults) (t : Table)
    (n : String) (cells : List (Option ℚ))
    (hcol : getColData (coerceNumeric (lowercaseCols t)) n = some (ColData.num cells))
    (habs : ∀ c ∈ cells, c = none)
    (h1 : n ≠ "energy_manufacturing") (h2 : n ≠ "co2_manufacturing")
    (h3 : n ≠ "transport_cost")
    (i : Nat) (hi : i < cells.length)
    (hs : (run_hybrid_imputation fam d t).isSome) :
    (run_hybrid_imputation fam d t).bind (fun o => getCell o n i)
      = some (some (Scalar.num 0)) ∧
    getCell (fill_missing_values fam (coerceNumeric (lowercaseCols t))).1 n i
      = some none := by
  have hnil : cells.filterMap id = [] := filterMap_id_nil_of_all_none cells habs
  have h5 : (cells.filterMap id).length < 5 := by rw [hnil]; decide
  obtain ⟨c, hcell⟩ := getq_of_lt cells i hi
  have hcnone : c = none := habs c (getq_mem cells i c hcell)
  subst hcnone
  have hkeep : getColData (fill_missing_values fam (coerceNumeric (lowercaseCols t))).1 n
      = some (ColData.num cells) :=
    foldFill_untouched (fam N_ESTIMATORS RANDOM_STATE)
      (aiTargets (coerceNumeric (lowercaseCols t)))
      (objColNames (coerceNumeric (lowercaseCols t))) n cells habs h5
      (aiTargets (coerceNumeric (lowercaseCols t)))
      (coerceNumeric (lowercaseCols t), initMask (coerceNumeric (lowercaseCols t))) hcol
  constructor
  · have hrun : run_hybrid_imputation fam d t
        = (domainFill d (fill_missing_values fam (coerceNumeric (lowercaseCols t))).1).map
            lastResortFill := rfl
    rw [hrun] at hs ⊢
    cases hdf : domainFill d (fill_missing_values fam (coerceNumeric (lowercaseCols t))).1 with
    | none => rw [hdf] at hs; simp at hs
    | some t2 =>
      show getCell (lastResortFill t2) n i = some (some (Scalar.num 0))
      have hcol2 : getColData t2 n = some (ColData.num cells) := by
        rw [domainFill_other d _ t2 hdf n h1 h2 h3]
        exact hkeep
      have hlr := lastResort_num_cell t2 n cells i none hcol2
        (any_isNone_of_get cells i hcell) hcell
      rw [hnil] at hlr
      exact hlr
  · rw [getCell_num _ n cells i hkeep, hcell]
    rfl

/-- Claim C7 amended, witness: the fully absent `material_cost`
column of `tC7w` comes out as 0 from the pipeline while the
supervised stage left it absent. -/
theorem c7_fully_absent_amended_witness :
    (run_hybrid_imputation failFam resolvedSystemDefaults tC7w).bind
        (fun o => getCell o "material_cost" 1) = some (some (Scalar.num 0)) ∧
    getCell (fill_missing_values failFam (coerceNumeric (lowercaseCols tC7w))).1
        "material_cost" 1 = some none :=
  c7_fully_absent_amended failFam resolvedSystemDefaults tC7w "material_cost"
    [none, none] (by with_unfolding_all decide) (by with_unfolding_all decide)
    (by with_unfolding_all decide) (by with_unfolding_all decide)
    (by with_unfolding_all decide) 1 (by with_unfolding_all decide)
    (by with_unfolding_all decide)

/-- Claim C8, confirmed.  `failFam` models a regressor whose fit or
predict raises for every field.  The exception is absorbed: the stage
still returns a table (the embedded `try/except` has no failing
path), the gaps of the failing field are filled by the median of its
observed values, and since this holds for every eligible target
simultaneously, a failure in one field never prevents the imputation of
the others, and nothing surfaces to the caller. -/
theorem c8_training_failure_absorbed (df : Table) (n : String)
    (cells : List (Option ℚ))
    (hmem : n ∈ aiTargets df)
    (hcol : getColData df n = some (ColData.num cells))
    (hobs : 0 < (cells.filterMap id).length) :
    ∃ m, medianOf (cells.filterMap id) = some m ∧
      ∀ i c, cells[i]? = some c →
        getCell (fill_missing_values failFam df).1 n i
          = some (some (Scalar.num (c.getD m))) := by
  obtain ⟨m, hm⟩ := medianOf_isSome (cells.filterMap id)
    (by intro hnil; rw [hnil] at hobs; cases hobs)
  refine ⟨m, hm, ?_⟩
  intro i c hc
  by_cases hgap : cells.any (fun c => c.isNone) = true
  · have hfold : getColData (fill_missing_values failFam df).1 n
        = some (ColData.num (fillGapsAux (fun _ => m) cells 0)) :=
      foldFill_median_noModel (aiTargets df) (objColNames df) n cells m hgap hm
        (aiTargets df) (df, initMask df) hmem hcol
    rw [getCell_num _ n _ i hfold, fillGapsAux_const m cells 0 i c hc]
    rfl
  · simp only [Bool.not_eq_true] at hgap
    have hkeep : getColData (fill_missing_values failFam df).1 n
        = some (ColData.num cells) :=
      foldFill_keep (failFam N_ESTIMATORS RANDOM_STATE) (aiTargets df)
        (objColNames df) n cells hgap (aiTargets df) (df, initMask df) hcol
    obtain ⟨v, hv⟩ := all_some_of_any_false cells hgap i c hc
    subst hv
    rw [getCell_num _ n cells i hkeep, hc]
    rfl

/-- Claim C8, witness: `weight_kg` has five observed values and one
gap with a non-empty feature set, so a model would be trained; the
failing model is caught and the gap receives the median 30. -/
theorem c8_training_failure_absorbed_witness :
    ∃ m, medianOf (([some 10, some 20, some 30, some 40, some 50, none] :
            List (Option ℚ)).filterMap id) = some m ∧
      ∀ i c, ([some 10, some 20, some 30, some 40, some 50, none] :
            List (Option ℚ))[i]? = some c →
        getCell (fill_missing_values failFam tC8w).1 "weight_kg" i
          = some (some (Scalar.num (c.getD m))) :=
  c8_training_failure_absorbed tC8w "weight_kg"
    [some 10, some 20, some 30, some 40, some 50, none]
    (by with_unfolding_all decide) (by with_unfolding_all decide)
    (by with_unfolding_all decide)

/-- Claim C9, confirmed.  At the derivation stage, a row whose
manufacturing-emissions cell is absent and whose manufacturing-energy
cell reads 50, under a resolved emissions-per-energy default of 0.35
(written 7/20; this is the system default when the caller supplies
none), gets its emissions cell set to exactly 50 * 0.35 = 17.5
(written 35/2). -/
theorem c9_manufacturing_emissions_rule (d : Defaults) (t : Table) (i : Nat)
    (cm em : List (Option ℚ))
    (hcm : getColData t "co2_manufacturing" = some (ColData.num cm))
    (hem : getColData t "energy_manufacturing" = some (ColData.num em))
    (hcmi : cm[i]? = some none)
    (hemi : em[i]? = some (some 50))
    (hd : d.co2_kwh_man = 7 / 20)
    (hs : (domainFill d t).isSome) :
    (domainFill d t).bind (fun o => getCell o "co2_manufacturing" i)
      = some (some (Scalar.num (35 / 2))) ∧
    resolvedSystemDefaults.co2_kwh_man = 7 / 20 := by
  refine ⟨?_, rfl⟩
  cases hdf : domainFill d t with
  | none => rw [hdf] at hs; simp at hs
  | some t3 =>
    obtain ⟨t1, t2, h1, h2, h3⟩ := domainFill_bind d t t3 hdf
    have hcm1 : getColData t1 "co2_manufacturing" = some (ColData.num cm) := by
      rw [fillEnergyMan_other d t t1 h1 "co2_manufacturing" (by decide)]
      exact hcm
    have hem1 : ∃ em1, getColData t1 "energy_manufacturing" = some (ColData.num em1)
        ∧ em1[i]? = some (some 50) := by
      rcases fillEnergyMan_shape d t t1 h1 with heq | ⟨em0, hem0, heq⟩
      · refine ⟨em, ?_, hemi⟩
        rw [heq]
        exact hem
      · rw [hem0] at hem
        injection hem with hem
        injection hem with hem
        subst hem
        subst heq
        refine ⟨fillnaConst em0 (d.avg_energy_ext * (1 / 20)),
                getColData_set_self t _ _ _ hem0, ?_⟩
        rw [fillnaConst_get _ em0 i (some 50) hemi]
        rfl
    obtain ⟨em1, hem1c, hem1i⟩ := hem1
    have hany : cm.any (fun c => c.isNone) = true := any_isNone_of_get cm i hcmi
    have h2eq := fillCo2Man_self d t1 cm em1 hcm1 hany hem1c
    rw [h2eq] at h2
    injection h2 with h2
    have hcol2 : getColData t2 "co2_manufacturing"
        = some (ColData.num (fillFromScaled cm em1 d.co2_kwh_man)) := by
      rw [← h2]
      exact getColData_set_self t1 _ _ _ hcm1
    have hcol3 : getColData t3 "co2_manufacturing"
        = some (ColData.num (fillFromScaled cm em1 d.co2_kwh_man)) := by
      rw [fillTransportCost_other d t2 t3 h3 "co2_manufacturing" (by decide)]
      exact hcol2
    show getCell t3 "co2_manufacturing" i = some (some (Scalar.num (35 / 2)))
    rw [getCell_num _ _ _ i hcol3,
        fillFromScaled_none d.co2_kwh_man cm em1 i (some 50) hcmi hem1i, hd]
    with_unfolding_all decide

/-- Claim C9, witness: the one-row table `tC9w` under the system
defaults. -/
theorem c9_manufacturing_emissions_rule_witness :
    (domainFill resolvedSystemDefaults tC9w).bind
        (fun o => getCell o "co2_manufacturing" 0) = some (some (Scalar.num (35 / 2))) ∧
    resolvedSystemDefaults.co2_kwh_man = 7 / 20 :=
  c9_manufacturing_emissions_rule resolvedSystemDefaults tC9w 0 [none] [some 50]
    (by with_unfolding_all decide) (by with_unfolding_all decide)
    (by with_unfolding_all decide) (by with_unfolding_all decide)
    (by with_unfolding_all decide) (by with_unfolding_all decide)

/-- Claim C10, confirmed.  A row whose `energy_manufacturing` is
still absent when the derivation stage runs is filled with
`avg_energy_ext * 0.05` (written 1/20; 200 * 0.05 = 10 under system
defaults), and this fill happens before the manufacturing-emissions
rule, which therefore reads the already-filled energy value: an
absent emissions cell in the same row becomes
`(avg_energy_ext * 0.05) * co2_kwh_man`. -/
theorem c10_energy_manufacturing_default (d : Defaults) (t : Table) (i : Nat)
    (em cm : List (Option ℚ))
    (hem : getColData t "energy_manufacturing" = some (ColData.num em))
    (hcm : getColData t "co2_manufacturing" = some (ColData.num cm))
    (hemi : em[i]? = some none)
    (hcmi : cm[i]? = some none)
    (hs : (domainFill d t).isSome) :
    (domainFill d t).bind (fun o => getCell o "energy_manufacturing" i)
      = some (some (Scalar.num (d.avg_energy_ext * (1 / 20)))) ∧
    (domainFill d t).bind (fun o => getCell o "co2_manufacturing" i)
      = some (some (Scalar.num ((d.avg_energy_ext * (1 / 20)) * d.co2_kwh_man))) ∧
    resolvedSystemDefaults.avg_energy_ext * (1 / 20) = 10 := by
  cases hdf : domainFill d t with
  | none => rw [hdf] at hs; simp at hs
  | some t3 =>
    obtain ⟨t1, t2, h1, h2, h3⟩ := domainFill_bind d t t3 hdf
    have hanyE : em.any (fun c => c.isNone) = true := any_isNone_of_get em i hemi
    have h1eq := fillEnergyMan_self d t em hem hanyE
    rw [h1eq] at h1
    injection h1 with h1
    have hem1 : getColData t1 "energy_manufacturing"
        = some (ColData.num (fillnaConst em (d.avg_energy_ext * (1 / 20)))) := by
      rw [← h1]
      exact getColData_set_self t _ _ _ hem
    have hem1i : (fillnaConst em (d.avg_energy_ext * (1 / 20)))[i]?
        = some (some (d.avg_energy_ext * (1 / 20))) := by
      rw [fillnaConst_get _ em i none hemi]
      rfl
    have hcm1 : getColData t1 "co2_manufacturing" = some (ColData.num cm) := by
      rw [← h1, getColData_set_other t _ _ _ (by decide)]
      exact hcm
    have hanyC : cm.any (fun c => c.isNone) = true := any_isNone_of_get cm i hcmi
    have h2eq := fillCo2Man_self d t1 cm _ hcm1 hanyC hem1
    rw [h2eq] at h2
    injection h2 with h2
    have hem2 : getColData t2 "energy_manufacturing"
        = some (ColData.num (fillnaConst em (d.avg_energy_ext * (1 / 20)))) := by
      rw [← h2, getColData_set_other t1 _ _ _ (by decide)]
      exact hem1
    have hcm2 : getColData t2 "co2_manufacturing"
        = some (ColData.num (fillFromScaled cm
            (fillnaConst em (d.avg_energy_ext * (1 / 20))) d.co2_kwh_man)) := by
      rw [← h2]
      exact getColData_set_self t1 _ _ _ hcm1
    have hem3 : getColData t3 "energy_manufacturing"
        = some (ColData.num (fillnaConst em (d.avg_energy_ext * (1 / 20)))) := by
      rw [fillTransportCost_other d t2 t3 h3 "energy_manufacturing" (by decide)]
      exact hem2
    have hcm3 : getColData t3 "co2_manufacturing"
        = some (ColData.num (fillFromScaled cm
            (fillnaConst em (d.avg_energy_ext * (1 / 20))) d.co2_kwh_man)) := by
      rw [fillTransportCost_other d t2 t3 h3 "co2_manufacturing" (by decide)]
      exact hcm2
    refine ⟨?_, ?_, by with_unfolding_all decide⟩
    · show getCell t3 "energy_manufacturing" i
        = some (some (Scalar.num (d.avg_energy_ext * (1 / 20))))
      rw [getCell_num _ _ _ i hem3, hem1i]
      rfl
    · show getCell t3 "co2_manufacturing" i
        = some (some (Scalar.num ((d.avg_energy_ext * (1 / 20)) * d.co2_kwh_man)))
      rw [getCell_num _ _ _ i hcm3,
          fillFromScaled_none d.co2_kwh_man cm _ i _ hcmi hem1i]
      rfl

/-- Claim C10, witness: one row with both cells absent, system
defaults; energy becomes 10 and emissions 10 * 0.35 = 3.5. -/
theorem c10_energy_manufacturing_default_witness :
    (domainFill resolvedSystemDefaults tC10w).bind
        (fun o => getCell o "energy_manufacturing" 0) = some (some (Scalar.num 10)) ∧
    (domainFill resolvedSystemDefaults tC10w).bind
        (fun o => getCell o "co2_manufacturing" 0) = some (some (Scalar.num (7 / 2))) := by
  have h := c10_energy_manufacturing_default resolvedSystemDefaults tC10w 0 [none] [none]
    (by with_unfolding_all decide) (by with_unfolding_all decide)
    (by with_unfolding_all decide) (by with_unfolding_all decide)
    (by with_unfolding_all decide)
  exact ⟨h.1.trans (by with_unfolding_all decide),
         h.2.1.trans (by with_unfolding_all decide)⟩

end LCAEngine
